import Mathlib

/-!
Shopify partner events → Google Sheets sync: verification development

Shallow embedding of `src/main.go` (package `main`) and proofs of its specified
behaviour.  Definitions come first, theorems afterwards.

Conventions of the embedding

* Go `string` is `String`; `AppEventType` is a defined string type, so it is `String` too.
* Go `int` (64 bit) is `Int` with explicit two's-complement wrap-around (`wrapInt`)
  at the one place where the program does arithmetic on counts (`++`).
* Go `map[K]V` is an association list without duplicate keys (`GoMap`); reading a
  missing key yields the zero value, as in Go.
* `time.Time` is an instant (seconds since the Unix epoch plus nanoseconds) together
  with the UTC offset of the location the value carries.  The date that `Format` prints
  is computed as package `time` does, from `Time.abs`, in 64 bits with wrap-around.
* `interface{}` cells of the Sheets API are values of `Cell`.
-/

namespace PartnerSync

/-! ## Go `time` values (standard library, modelled by its documented behaviour) -/

/-- A `time.Time`: the instant (`unix` seconds since 1970-01-01T00:00:00Z and `nsec`
nanoseconds) and `offset`, the number of seconds east of UTC that the location carried
by the value has at that instant. -/
structure Time where
  unix : Int
  nsec : Nat
  offset : Int
deriving DecidableEq, Repr

/-- The value `time.FixedZone("GMT+7", 7*60*60)`: its offset in seconds east of UTC. -/
def gmt7 : Int := 7 * 60 * 60

/-- Method `Time.In` for a fixed-offset location: same instant, other location. -/
def Time.In (t : Time) (loc : Int) : Time := { t with offset := loc }

/-- Method `Time.UTC`. -/
def Time.UTC (t : Time) : Time := t.In 0

/-- Days since 1970-01-01 of the proleptic Gregorian calendar date `y-m-d`. -/
def daysFromCivil (y m d : Int) : Int :=
  let y1 := if m ≤ 2 then y - 1 else y
  let era := y1 / 400
  let yoe := y1 - era * 400
  let mp := if m > 2 then m - 3 else m + 9
  let doy := (153 * mp + 2) / 5 + d - 1
  let doe := yoe * 365 + yoe / 4 - yoe / 100 + doy
  era * 146097 + doe - 719468

/-- Proleptic Gregorian calendar date `(year, month, day)` of the day that lies `z` days
after 1970-01-01. -/
def civilFromDays (z : Int) : Int × Int × Int :=
  let z1 := z + 719468
  let era := z1 / 146097
  let doe := z1 - era * 146097
  let yoe := (doe - doe / 1460 + doe / 36524 - doe / 146096) / 365
  let y := yoe + era * 400
  let doy := doe - (365 * yoe + yoe / 4 - yoe / 100)
  let mp := (5 * doy + 2) / 153
  let d := doy - (153 * mp + 2) / 5 + 1
  let m := if mp < 10 then mp + 3 else mp - 9
  (if m ≤ 2 then y + 1 else y, m, d)

/-- Seconds since the Unix epoch, shifted into the location of the value (the wall clock
reading as a number of seconds). -/
def Time.wallSeconds (t : Time) : Int := t.unix + t.offset

/-- Method `Time.Date`: year, month and day in the location of the value, for a value
whose wall clock reading lies where the 64-bit arithmetic of the package does not wrap
(`Time.abs` below carries the wrap; it is used for the date key of an event). -/
def Time.Date (t : Time) : Int × Int × Int := civilFromDays (t.wallSeconds / 86400)

/-- Method `Time.Year`. -/
def Time.Year (t : Time) : Int := t.Date.1

/-- Method `Time.Month`. -/
def Time.Month (t : Time) : Int := t.Date.2.1

/-- Method `Time.Day`. -/
def Time.Day (t : Time) : Int := t.Date.2.2

/-- Function `time.Date(year, month, day, hour, min, sec, nsec, loc)` for a location
with the fixed offset `loc` and arguments inside their normal ranges. -/
def timeDate (year month day hour min sec : Int) (nsec : Nat) (loc : Int) : Time :=
  { unix := daysFromCivil year month day * 86400 + hour * 3600 + min * 60 + sec - loc
    nsec := nsec
    offset := loc }

/-- Helper `appendInt` of package `time`: decimal digits of `x`, zero-padded on the left
to `width` digits, after a minus sign when `x` is negative. -/
def appendInt (x : Int) (width : Nat) : List Char :=
  let ds := Nat.toDigits 10 x.natAbs
  (if x < 0 then ['-'] else []) ++ List.replicate (width - ds.length) '0' ++ ds

/-- The constant `unixToInternal + internalToAbsolute` of package `time`: the number of
seconds from the absolute zero of its date arithmetic, 1 January of the year -292277022399,
to the Unix epoch. -/
def unixToAbsolute : Int := 9223372028715321600

/-- Method `Time.abs` of package `time`: the wall clock reading of the value in seconds
since the absolute zero.  Go computes it in 64 bits and returns a `uint64`, so the sum
wraps modulo `2^64 = 18446744073709551616`. -/
def Time.abs (t : Time) : Int :=
  (t.unix + t.offset + unixToAbsolute) % 18446744073709551616

/-- Function `absDate` of package `time`: year, month and day of the day on which the
second `abs` after the absolute zero falls. -/
def absDate (abs : Int) : Int × Int × Int :=
  civilFromDays (abs / 86400 - unixToAbsolute / 86400)

/-- The call `t.Format("2006-01-02")`, which formats `absDate(t.abs())`. -/
def Time.FormatDate (t : Time) : String :=
  String.mk (appendInt (absDate t.abs).1 4 ++ ['-'] ++ appendInt (absDate t.abs).2.1 2
    ++ ['-'] ++ appendInt (absDate t.abs).2.2 2)

/-- The call `t.Format(time.RFC3339)` for a value whose location is UTC. -/
def Time.FormatRFC3339UTC (t : Time) : String :=
  let s := t.wallSeconds % 86400
  String.mk (appendInt t.Year 4 ++ ['-'] ++ appendInt t.Month 2 ++ ['-'] ++ appendInt t.Day 2
    ++ ['T'] ++ appendInt (s / 3600) 2 ++ [':'] ++ appendInt (s % 3600 / 60) 2 ++ [':']
    ++ appendInt (s % 60) 2 ++ ['Z'])

/-! ## Go maps and machine integers -/

/-- Go `int` wrap-around: the representative of `x` modulo `2^64` in `[-2^63, 2^63)`. -/
def wrapInt (x : Int) : Int := (x + 2 ^ 63) % 2 ^ 64 - 2 ^ 63

/-- A Go `map[string]V`: association list; the operations below keep the keys distinct. -/
abbrev GoMap (V : Type) := List (String × V)

/-- Comma-ok lookup `v, ok := m[k]`. -/
def GoMap.get? {V : Type} : GoMap V → String → Option V
  | [], _ => none
  | (k1, v) :: rest, k => if k1 = k then some v else GoMap.get? rest k

/-- Assignment `m[k] = v`. -/
def GoMap.set {V : Type} : GoMap V → String → V → GoMap V
  | [], k, v => [(k, v)]
  | (k1, v1) :: rest, k, v => if k1 = k then (k, v) :: rest else (k1, v1) :: GoMap.set rest k v

/-- The keys of a map (Go iterates them in an unspecified order). -/
def GoMap.keys {V : Type} (m : GoMap V) : List String := m.map Prod.fst

/-! ## Data model of `main.go` -/

/-- Go type `AppEventType`. -/
abbrev AppEventType := String

/-- Go struct `AppEventNode`. -/
structure AppEventNode where
  type : AppEventType
  occurredAt : Time
deriving DecidableEq, Repr

/-- Go struct `AppEventEdges`. -/
structure AppEventEdges where
  node : AppEventNode
  cursor : String
deriving DecidableEq, Repr

/-- Go type `AppEventStatistic`, `map[AppEventType]int`. -/
abbrev AppEventStatistic := GoMap Int

/-- Go type `AppEventStatisticByDate`, `map[string]AppEventStatistic`. -/
abbrev AppEventStatisticByDate := GoMap AppEventStatistic

/-- The read `m[k]` of a `map[AppEventType]int`, which may be the nil map: `0` when absent. -/
def AppEventStatistic.at (m : Option AppEventStatistic) (k : AppEventType) : Int :=
  match m with
  | none => 0
  | some inner => (GoMap.get? inner k).getD 0

/-- The read `appEventStatistic[date][kind]`. -/
def AppEventStatisticByDate.cell (m : AppEventStatisticByDate) (date : String)
    (kind : AppEventType) : Int :=
  AppEventStatistic.at (GoMap.get? m date) kind

/-- Lines 55-56: the date key of an event, `OccurredAt.In(GMT+7).Format("2006-01-02")`. -/
def dateKey (edge : AppEventEdges) : String :=
  (edge.node.occurredAt.In gmt7).FormatDate

/-- Body of the loop of `getAppEventStatistic` (lines 54-61). -/
def statStep (appEventStatistic : AppEventStatisticByDate) (edge : AppEventEdges) :
    AppEventStatisticByDate :=
  let date := dateKey edge
  let m1 := match GoMap.get? appEventStatistic date with
    | some _ => appEventStatistic
    | none => GoMap.set appEventStatistic date []
  let inner := (GoMap.get? m1 date).getD []
  GoMap.set m1 date (GoMap.set inner edge.node.type
    (wrapInt ((GoMap.get? inner edge.node.type).getD 0 + 1)))

/-- Function `getAppEventStatistic` (lines 51-64). -/
def getAppEventStatistic (edges : List AppEventEdges) : AppEventStatisticByDate :=
  edges.foldl statStep []

/-- Go's `a < b` on strings, given by their characters: lexicographic order.  (Go
compares the bytes of the UTF-8 encoding, which orders valid strings as their code points
do.) -/
def ltChars : List Char → List Char → Bool
  | _, [] => false
  | [], _ :: _ => true
  | c :: cs, d :: ds =>
    if c.toNat < d.toNat then true else if c = d then ltChars cs ds else false

/-- Go's `a < b` on strings. -/
def stringLess (a b : String) : Bool := ltChars a.data b.data

/-- Line 152 of `main`, `sort.Strings(dates)`: the strings in ascending order.  The order
in which Go ranges over the map at line 149 is unspecified; `sortStrings_perm_eq` shows
that the sorted result does not depend on it, and hence not on the sorting algorithm. -/
def sortStrings (dates : List String) : List String :=
  dates.insertionSort (fun a b => stringLess b a = false)

/-- Lines 147-152 of `main`. -/
def sortedDates (appEventStatistic : AppEventStatisticByDate) : List String :=
  sortStrings (GoMap.keys appEventStatistic)

/-! ## Spreadsheet values and calls -/

/-- A Go `interface{}` value as found in a `sheets.ValueRange`: a string, an `int`
(written by this program), or one of the other values a decoded response can hold
(a `float64`, given by its bit pattern, a `bool`, or `nil`). -/
inductive Cell where
  | str (s : String)
  | int (n : Int)
  | float (bits : Nat)
  | bool (b : Bool)
  | null
deriving DecidableEq, Repr

/-- One row of a `ValueRange`, `[]interface{}`. -/
abbrev Row := List Cell

/-- Local `expectedHeaders` of `headerRowMatches`. -/
def expectedHeaders : List String := ["Date", "Installs", "Closed", "Reopened", "Uninstalls"]

/-- The loop of `headerRowMatches` (lines 312-317); `header != expectedHeaders[i]`
compares an interface value with a string, which are equal only when the dynamic type is
`string` and the values agree. -/
def headerCellsMatch : Row → List String → Bool
  | [], _ => true
  | _ :: _, [] => false
  | header :: rest, e :: es => if header ≠ Cell.str e then false else headerCellsMatch rest es

/-- Function `headerRowMatches` (lines 307-318). -/
def headerRowMatches (row : Row) : Bool :=
  if row.length ≠ expectedHeaders.length then false else headerCellsMatch row expectedHeaders

/-- The header literal written at line 243. -/
def headerLiteral : Row :=
  [Cell.str "Date", Cell.str "Installs", Cell.str "Closed", Cell.str "Reopened",
   Cell.str "Uninstalls"]

/-- A write request sent to the spreadsheet service, both with `ValueInputOption("RAW")`:
`update sheet r values` is `Values.Update` on the range `sheet!A<r>:E<r>` and
`append sheet r values` is `Values.Append` on the range `sheet!A<r>`. -/
inductive Call where
  | update (sheet : String) (row : Nat) (values : List Row)
  | append (sheet : String) (row : Nat) (values : List Row)
deriving DecidableEq, Repr

/-- Whether a call is a `Values.Update`. -/
def Call.isUpdate : Call → Bool
  | Call.update _ _ _ => true
  | Call.append _ _ _ => false

/-- What `writeToGoogleSheets` did: the write requests it sent, oldest first, the value of
`nextRow` once lines 240-251 have set it, and the error it returned (`none` for `nil`). -/
structure SheetResult where
  calls : List Call
  nextRow : Option Nat
  err : Option String
deriving DecidableEq, Repr

/-- A schedule of remote failures: `fails i` tells whether the write request number `i`
(counted from 0 within one run) comes back with an error. -/
abbrev Faults := Nat → Bool

/-- The schedule on which every request succeeds. -/
def noFault : Faults := fun _ => false

/-- Condition of line 240, negated: the header read returned a first row and it matches. -/
def headerOk (headerRange : List Row) : Bool :=
  match headerRange with
  | [] => false
  | row :: _ => headerRowMatches row

/-- The value given to `nextRow` by lines 240-251. -/
def nextRowOf (headerRange existingData : List Row) : Nat :=
  if headerOk headerRange then existingData.length + 1 else 2

/-- Lines 254-260: the map from the string in column A to the 1-indexed row number; `i`
is the index of the first row of `rows` and `m` the map built so far. -/
def buildDateRowMap : List Row → Nat → GoMap Nat → GoMap Nat
  | [], _, m => m
  | row :: rest, i, m =>
    match row with
    | Cell.str date :: _ => buildDateRowMap rest (i + 1) (GoMap.set m date (i + 1))
    | _ => buildDateRowMap rest (i + 1) m

/-- The map `dateRowMap` as it stands after line 260. -/
def dateRowMapOf (existingData : List Row) : GoMap Nat :=
  buildDateRowMap existingData 0 []

/-- Lines 264-271: the five cells built for `date`. -/
def rowData (appEventStatistic : AppEventStatisticByDate) (date : String) : Row :=
  let eventStatistic := GoMap.get? appEventStatistic date
  [Cell.str date,
   Cell.int (AppEventStatistic.at eventStatistic "RELATIONSHIP_INSTALLED"),
   Cell.int (AppEventStatistic.at eventStatistic "RELATIONSHIP_DEACTIVATED"),
   Cell.int (AppEventStatistic.at eventStatistic "RELATIONSHIP_REACTIVATED"),
   Cell.int (AppEventStatistic.at eventStatistic "RELATIONSHIP_UNINSTALLED")]

/-- The loop of lines 263-288 over the remaining `dates`; `calls` are the requests sent so
far and `values` the rows queued so far.  Returns the requests sent and either the error
of a failed update or the final queue. -/
def processDates (fails : Faults) (sheetName : String)
    (appEventStatistic : AppEventStatisticByDate) (dateRowMap : GoMap Nat) :
    List String → List Call → List Row → List Call × Except String (List Row)
  | [], calls, values => (calls, Except.ok values)
  | date :: rest, calls, values =>
    match GoMap.get? dateRowMap date with
    | some existingRow =>
      let call := Call.update sheetName existingRow [rowData appEventStatistic date]
      if fails calls.length then
        (calls ++ [call], Except.error "unable to update existing row")
      else
        processDates fails sheetName appEventStatistic dateRowMap rest (calls ++ [call]) values
    | none =>
      processDates fails sheetName appEventStatistic dateRowMap rest calls
        (values ++ [rowData appEventStatistic date])

/-- Function `writeToGoogleSheets` from line 236 on, that is once the service has been
created, the tab found or created, and the two reads of lines 224 and 231 have returned
`headerRange.Values` and `existingData.Values`. -/
def writeToGoogleSheets (fails : Faults) (sheetName : String)
    (headerRange existingData : List Row) (dates : List String)
    (appEventStatistic : AppEventStatisticByDate) : SheetResult :=
  let headerCalls : List Call :=
    if headerOk headerRange then [] else [Call.update sheetName 1 [headerLiteral]]
  if !headerOk headerRange && fails 0 then
    { calls := headerCalls, nextRow := none, err := some "unable to update header row" }
  else
    let nextRow := nextRowOf headerRange existingData
    let dateRowMap := dateRowMapOf existingData
    match processDates fails sheetName appEventStatistic dateRowMap dates headerCalls [] with
    | (calls, Except.error e) => { calls := calls, nextRow := some nextRow, err := some e }
    | (calls, Except.ok values) =>
      if values.length > 0 then
        let call := Call.append sheetName nextRow values
        if fails calls.length then
          { calls := calls ++ [call], nextRow := some nextRow,
            err := some "unable to append new rows" }
        else
          { calls := calls ++ [call], nextRow := some nextRow, err := none }
      else
        { calls := calls, nextRow := some nextRow, err := none }

/-! ## The remote tab -/

/-- Modelled from the spec: the remote store is not part of the repository; the spec
describes it as a two-dimensional tabular store addressed by cell range.  A tab is the
list of its rows (columns A to E), row 1 first.  `Tab.setRow tab r row` overwrites row
`r` (1-indexed) in place, creating empty rows in between when `r` lies beyond the end. -/
def Tab.setRow (tab : List Row) (r : Nat) (row : Row) : List Row :=
  if r = 0 then tab
  else if r ≤ tab.length then tab.set (r - 1) row
  else tab ++ List.replicate (r - 1 - tab.length) [] ++ [row]

/-- Modelled from the spec: writing `values` as one contiguous block whose first row is
row `r`. -/
def Tab.writeBlock : List Row → Nat → List Row → List Row
  | tab, _, [] => tab
  | tab, r, row :: rest => Tab.writeBlock (Tab.setRow tab r row) (r + 1) rest

/-- Modelled from the spec: effect of one successful write request on the tab.  An update
overwrites the addressed rows in place; an append adds its rows after the existing rows of
the tab, as one contiguous block (the row number the request carries is the next-free-row
pointer computed by the caller).  Cells are read back as they were written. -/
def Tab.apply (tab : List Row) : Call → List Row
  | Call.update _ r values => Tab.writeBlock tab r values
  | Call.append _ _ values => tab ++ values

/-- Modelled from the spec: the read of `A1:E1`, the first row when it has a cell. -/
def Tab.readHeader (tab : List Row) : List Row :=
  match tab with
  | [] => []
  | row :: _ => if row = [] then [] else [row]

/-- Modelled from the spec: one reconciliation run on which every request succeeds,
as a transformation of the tab: the two reads, then the writes applied in order. -/
def Tab.sync (sheetName : String) (dates : List String)
    (appEventStatistic : AppEventStatisticByDate) (tab : List Row) : List Row :=
  (writeToGoogleSheets noFault sheetName (Tab.readHeader tab) tab dates
    appEventStatistic).calls.foldl Tab.apply tab

/-! ## The fetch loop of `main` -/

/-- The part of a successful response the loop uses: `query.App.AppEvent`. -/
structure Page where
  edges : List AppEventEdges
  hasNextPage : Bool
deriving DecidableEq, Repr

/-- Outcome of one `client.Query` of the loop. -/
inductive Response where
  | ok (page : Page)
  | error (msg : String)
deriving DecidableEq, Repr

/-- The variables of the loop of lines 115-142, and `requests`, the value of `endCursor`
sent with each request so far, oldest first. -/
structure FetchState where
  allEdges : List AppEventEdges
  endCursor : Option String
  hasNextPage : Bool
  requests : List (Option String)
deriving DecidableEq, Repr

/-- Lines 115-117. -/
def FetchState.init : FetchState :=
  { allEdges := [], endCursor := none, hasNextPage := true, requests := [] }

/-- Lines 135-141: the loop body after a successful response. -/
def fetchOk (s : FetchState) (page : Page) : FetchState :=
  let s1 := { s with allEdges := s.allEdges ++ page.edges,
                     requests := s.requests ++ [s.endCursor] }
  if !page.hasNextPage then { s1 with hasNextPage := false }
  else if page.edges.length > 0 then
    match page.edges.getLast? with
    | some lastEdge => { s1 with endCursor := some lastEdge.cursor }
    | none => s1
  else s1

/-- The loop `for hasNextPage { ... }` of lines 119-142, run against the responses the
service gives to the successive requests.  The result is `none` when the loop is still
asking for a page after the last response of the list. -/
def fetchLoop : List Response → FetchState → Option FetchState
  | responses, s =>
    if !s.hasNextPage then some s
    else
      match responses with
      | [] => none
      | Response.error _ :: _ => some { s with requests := s.requests ++ [s.endCursor] }
      | Response.ok page :: rest => fetchLoop rest (fetchOk s page)

/-! ## `main` -/

/-- Line 84: the value of `startOfDay` before formatting. -/
def startOfDayTime (now : Time) : Time :=
  (timeDate now.Year now.Month now.Day 0 0 0 0 gmt7).UTC

/-- Lines 82-95: `occurredAtMin`; `args` is `os.Args` and `timeParse` is
`time.Parse(time.RFC3339, ·)`.  An error is the fatal exit of line 90. -/
def occurredAtMin (timeParse : String → Except String Time) (now : Time)
    (args : List String) : Except String String :=
  let startOfDay := (startOfDayTime now).FormatRFC3339UTC
  if args.length > 4 then
    match timeParse (args.getD 4 "" ++ "T00:00:00+07:00") with
    | Except.error e => Except.error e
    | Except.ok t => Except.ok t.UTC.FormatRFC3339UTC
  else Except.ok startOfDay

/-- What a run of `main` that reaches line 173 did. -/
structure MainResult where
  occurredAtMin : String
  requests : List (Option String)
  allEdges : List AppEventEdges
  dates : List String
  sheet : SheetResult
deriving DecidableEq, Repr

/-- Lines 144-177 of `main`: what the run does with the records the fetch loop has
accumulated.  An `Except.error` is the fatal exit of line 175. -/
def afterFetch (startOfDay name : String) (s : FetchState)
    (headerRange existingData : List Row) (fails : Faults) : Except String MainResult :=
  let appEventStatistic := getAppEventStatistic s.allEdges
  let dates := sortedDates appEventStatistic
  let sheet := writeToGoogleSheets fails name headerRange existingData dates appEventStatistic
  match sheet.err with
  | some e => Except.error ("Failed to write to Google Sheets: " ++ e)
  | none =>
    Except.ok { occurredAtMin := startOfDay, requests := s.requests,
                allEdges := s.allEdges, dates := dates, sheet := sheet }

/-- Function `main` (lines 77-178).  Inputs are everything the run reads from outside:
the clock, the arguments, the answer to the application-name query, the answers of the
event feed, the two reads of the tab, and the failures of the write requests.  The outer
`Option` is `none` when the fetch loop has not ended within `responses`; an
`Except.error` is a fatal exit (`log.Fatal`, or the index panic of lines 79-81).  The
value `occurredAtMax` of line 96 is only printed and the log lines are left out. -/
def main (timeParse : String → Except String Time) (now : Time) (args : List String)
    (appName : Except String String) (responses : List Response)
    (headerRange existingData : List Row) (fails : Faults) :
    Option (Except String MainResult) :=
  if args.length < 4 then some (Except.error "index out of range")
  else
    match occurredAtMin timeParse now args with
    | Except.error e => some (Except.error e)
    | Except.ok startOfDay =>
      match appName with
      | Except.error e => some (Except.error e)
      | Except.ok name =>
        match fetchLoop responses FetchState.init with
        | none => none
        | some s => some (afterFetch startOfDay name s headerRange existingData fails)

/-! ## Notions used to state the specification -/

/-- The instant `unix` (seconds since the Unix epoch) lies where the 64-bit date arithmetic
of package `time` does not wrap for a +7:00 clock: from seven hours before the absolute
zero (the year -292277022399) up to the largest `int64`.  Every instant that an RFC 3339
timestamp of the event feed can express (years 0000 to 9999) lies well inside. -/
abbrev inDateRange (unix : Int) : Prop :=
  -9223372028715346800 ≤ unix ∧ unix < 2 ^ 63

/-- The day on which the instant `unix` falls on a clock that is exactly seven hours ahead
of UTC, as a number of days since 1970-01-01. -/
def localDay (unix : Int) : Int := (unix + 7 * 3600) / 86400

/-- Number of records of `edges` that the code counts under the key `date` and the type
`kind` (an auxiliary notion of the proofs; the claims are stated with `countRecords`). -/
def countEvents (edges : List AppEventEdges) (date : String) (kind : AppEventType) : Nat :=
  edges.countP (fun e => decide (dateKey e = date ∧ e.node.type = kind))

/-- Sum of the counts of one `AppEventStatistic`. -/
def sumCounts (m : AppEventStatistic) : Int := (m.map Prod.snd).sum

/-- Sum of all per-date, per-kind counts of a table. -/
def AppEventStatisticByDate.total (m : AppEventStatisticByDate) : Int :=
  (m.map (fun p => sumCounts p.2)).sum

/-- The keys of the table are pairwise distinct, and so are the keys of every inner map:
the entries of the table are cells for pairwise distinct (date, kind) pairs. -/
def AppEventStatisticByDate.WellFormed (m : AppEventStatisticByDate) : Prop :=
  (GoMap.keys m).Nodup ∧ ∀ p ∈ m, (GoMap.keys p.2).Nodup

/-- The text `YYYY-MM-DD` of a calendar date `(year, month, day)`. -/
def ymd (date : Int × Int × Int) : String :=
  String.mk (appendInt date.1 4 ++ ['-'] ++ appendInt date.2.1 2 ++ ['-'] ++ appendInt date.2.2 2)

/-- The `YYYY-MM-DD` calendar date of the instant `unix` (seconds since the epoch) read
on a clock that is exactly seven hours ahead of UTC. -/
def localDateGmt7 (unix : Int) : String :=
  ymd (civilFromDays (localDay unix))

/-- Number of records of `edges` whose +7:00 local date is `date` and whose type is
`kind`. -/
def countRecords (edges : List AppEventEdges) (date : String) (kind : AppEventType) : Nat :=
  edges.countP (fun e =>
    decide (localDateGmt7 e.node.occurredAt.unix = date ∧ e.node.type = kind))

/-- The successive values of `rowData` in the loop of lines 263-271. -/
def builtRows (appEventStatistic : AppEventStatisticByDate) (dates : List String) : List Row :=
  dates.map (rowData appEventStatistic)

/-- The row `[date, installs, deactivations, reactivations, uninstalls]` with the counts
taken from the input records. -/
def expectedRow (edges : List AppEventEdges) (date : String) : Row :=
  [Cell.str date,
   Cell.int (countRecords edges date "RELATIONSHIP_INSTALLED"),
   Cell.int (countRecords edges date "RELATIONSHIP_DEACTIVATED"),
   Cell.int (countRecords edges date "RELATIONSHIP_REACTIVATED"),
   Cell.int (countRecords edges date "RELATIONSHIP_UNINSTALLED")]

/-- The events of the end-to-end scenario: an install at 2024-05-01T17:00:00Z, an
uninstall at 2024-05-01T18:00:00Z and an install at 2024-05-02T01:00:00Z. -/
def scenarioEdges : List AppEventEdges :=
  [{ node := { type := "RELATIONSHIP_INSTALLED", occurredAt := timeDate 2024 5 1 17 0 0 0 0 },
     cursor := "c1" },
   { node := { type := "RELATIONSHIP_UNINSTALLED", occurredAt := timeDate 2024 5 1 18 0 0 0 0 },
     cursor := "c2" },
   { node := { type := "RELATIONSHIP_INSTALLED", occurredAt := timeDate 2024 5 2 1 0 0 0 0 },
     cursor := "c3" }]

/-- The string held by column A of a row, when the row has a first cell and it is a
string. -/
def colA (row : Row) : Option String :=
  match row with
  | Cell.str date :: _ => some date
  | _ => none

/-- Column A of row number `r` (1-indexed) of `existing` holds the string `date`. -/
def holdsDate (existing : List Row) (r : Nat) (date : String) : Prop :=
  1 ≤ r ∧ existing[r - 1]?.bind colA = some date

/-- Some row of `existing` holds the string `date` in column A. -/
def inColumnA (existing : List Row) (date : String) : Bool :=
  existing.any (fun row => decide (colA row = some date))

/-- The update requests of the loop of lines 263-288 when no request fails: one for each
date of `dates` that has an entry in `dateRowMap`, in the order of `dates`. -/
def updatesOf (sheetName : String) (appEventStatistic : AppEventStatisticByDate)
    (dateRowMap : GoMap Nat) (dates : List String) : List Call :=
  dates.filterMap (fun d =>
    (GoMap.get? dateRowMap d).map
      (fun r => Call.update sheetName r [rowData appEventStatistic d]))

/-- The rows queued by the loop of lines 263-288 when no request fails: one for each
date of `dates` without an entry in `dateRowMap`, in the order of `dates`. -/
def queueOf (appEventStatistic : AppEventStatisticByDate) (dateRowMap : GoMap Nat)
    (dates : List String) : List Row :=
  (dates.filter (fun d => (GoMap.get? dateRowMap d).isNone)).map (rowData appEventStatistic)

/-- A tab without header whose rows 2 and 3 hold data. -/
def headerlessTab : List Row :=
  [[Cell.str "Day", Cell.str "Installs"],
   [Cell.str "2024-05-01", Cell.int 1, Cell.int 0, Cell.int 0, Cell.int 0],
   [Cell.str "2024-05-03", Cell.int 4, Cell.int 0, Cell.int 0, Cell.int 2]]

/-- A table with counts for 2024-05-01 and 2024-05-02. -/
def twoDayTable : AppEventStatisticByDate :=
  [("2024-05-01", [("RELATIONSHIP_INSTALLED", 1)]),
   ("2024-05-02", [("RELATIONSHIP_INSTALLED", 2), ("RELATIONSHIP_UNINSTALLED", 1)])]

/-- The records of a sequence of pages, concatenated in the order received. -/
def allRecords (pages : List Page) : List AppEventEdges :=
  (pages.map Page.edges).flatten

/-- The instant (seconds since the epoch) of midnight, on a clock exactly seven hours ahead
of UTC, of the day on which the instant `unix` falls on that clock. -/
def localMidnightGmt7 (unix : Int) : Int :=
  (unix + 7 * 3600) / 86400 * 86400 - 7 * 3600

/-- Value of a string of decimal digits (an auxiliary notion of the proofs). -/
def decodeNat (cs : List Char) : Nat :=
  cs.foldl (fun a c => 10 * a + (c.toNat - 48)) 0

/-- Value of a decimal numeral with an optional leading minus sign (an auxiliary notion of
the proofs). -/
def decodeInt (cs : List Char) : Int :=
  match cs with
  | [] => 0
  | c :: rest => if c = '-' then -(decodeNat rest : Int) else (decodeNat (c :: rest) : Int)

/-- A number that orders calendar dates `(year, month, day)` as the calendar does, for
months from 1 to 12 and days from 1 to 31 (an auxiliary notion of the proofs). -/
def dateOrdinal (t : Int × Int × Int) : Int := (t.1 * 12 + t.2.1) * 32 + t.2.2

/-- The distinct +7:00 local days of the records, earliest first, as days since
1970-01-01. -/
def sortedLocalDays (edges : List AppEventEdges) : List Int :=
  ((edges.map (fun e => localDay e.node.occurredAt.unix)).dedup).insertionSort
    (fun a b => a ≤ b)

/-- Two installs on the last day that an RFC 3339 timestamp can express, at
9999-12-31T10:00:00Z and at 9999-12-31T23:59:59Z. -/
def yearTenThousandEdges : List AppEventEdges :=
  [{ node := { type := "RELATIONSHIP_INSTALLED",
               occurredAt := timeDate 9999 12 31 10 0 0 0 0 }, cursor := "c1" },
   { node := { type := "RELATIONSHIP_INSTALLED",
               occurredAt := timeDate 9999 12 31 23 59 59 0 0 }, cursor := "c2" }]

/-! ## Theorems -/

/-! ### Maps -/

theorem GoMap.get?_set_self {V : Type} (m : GoMap V) (k : String) (v : V) :
    GoMap.get? (GoMap.set m k v) k = some v := by
  induction m with
  | nil => simp [GoMap.set, GoMap.get?]
  | cons p rest ih =>
    obtain ⟨k1, v1⟩ := p
    by_cases h : k1 = k
    · simp [GoMap.set, GoMap.get?, h]
    · simp [GoMap.set, GoMap.get?, h, ih]

theorem GoMap.get?_set_ne {V : Type} (m : GoMap V) (k k2 : String) (v : V) (hne : k ≠ k2) :
    GoMap.get? (GoMap.set m k v) k2 = GoMap.get? m k2 := by
  induction m with
  | nil => simp [GoMap.set, GoMap.get?, hne]
  | cons p rest ih =>
    obtain ⟨k1, v1⟩ := p
    by_cases h : k1 = k
    · subst h
      simp [GoMap.set, GoMap.get?, hne]
    · simp [GoMap.set, GoMap.get?, h, ih]

theorem GoMap.get?_set {V : Type} (m : GoMap V) (k k2 : String) (v : V) :
    GoMap.get? (GoMap.set m k v) k2 = if k = k2 then some v else GoMap.get? m k2 := by
  by_cases h : k = k2
  · subst h
    simp [GoMap.get?_set_self]
  · simp [h, GoMap.get?_set_ne m k k2 v h]

theorem GoMap.mem_keys_iff {V : Type} (m : GoMap V) (k : String) :
    k ∈ GoMap.keys m ↔ ∃ v, GoMap.get? m k = some v := by
  induction m with
  | nil => simp [GoMap.keys, GoMap.get?]
  | cons p rest ih =>
    obtain ⟨k1, v1⟩ := p
    by_cases h : k1 = k
    · subst h
      simp [GoMap.keys, GoMap.get?]
    · have h2 : ¬ k = k1 := fun e => h e.symm
      have ih2 := ih
      simp only [GoMap.keys] at ih2
      simp [GoMap.keys, GoMap.get?, h, h2, ih2]

theorem GoMap.mem_keys_set {V : Type} (m : GoMap V) (k k2 : String) (v : V) :
    k2 ∈ GoMap.keys (GoMap.set m k v) ↔ k2 = k ∨ k2 ∈ GoMap.keys m := by
  rw [GoMap.mem_keys_iff, GoMap.mem_keys_iff, GoMap.get?_set]
  by_cases h : k = k2
  · subst h
    simp
  · have h2 : ¬ k2 = k := fun e => h e.symm
    simp [h, h2]

theorem GoMap.keys_set {V : Type} (m : GoMap V) (k : String) (v : V) :
    GoMap.keys (GoMap.set m k v) =
      if k ∈ GoMap.keys m then GoMap.keys m else GoMap.keys m ++ [k] := by
  induction m with
  | nil => simp [GoMap.set, GoMap.keys]
  | cons p rest ih =>
    obtain ⟨k1, v1⟩ := p
    by_cases h : k1 = k
    · subst h
      simp [GoMap.set, GoMap.keys]
    · have h2 : ¬ k = k1 := fun e => h e.symm
      have ih2 := ih
      simp only [GoMap.keys] at ih2
      by_cases hm : k ∈ List.map Prod.fst rest
      · simp [GoMap.set, GoMap.keys, h, h2, ih2, hm]
      · simp [GoMap.set, GoMap.keys, h, h2, ih2, hm]

theorem GoMap.nodup_keys_set {V : Type} (m : GoMap V) (k : String) (v : V)
    (hm : (GoMap.keys m).Nodup) : (GoMap.keys (GoMap.set m k v)).Nodup := by
  rw [GoMap.keys_set]
  by_cases h : k ∈ GoMap.keys m
  · simp [h, hm]
  · simp only [h, if_false]
    rw [List.nodup_append]
    refine ⟨hm, List.nodup_singleton k, ?_⟩
    intro a ha hb
    simp at hb
    subst hb
    exact h ha

theorem GoMap.mem_of_get? {V : Type} (m : GoMap V) (k : String) (v : V)
    (h : GoMap.get? m k = some v) : (k, v) ∈ m := by
  induction m with
  | nil => simp [GoMap.get?] at h
  | cons p rest ih =>
    obtain ⟨k1, v1⟩ := p
    by_cases hk : k1 = k
    · subst hk
      simp [GoMap.get?] at h
      simp [h]
    · simp [GoMap.get?, hk] at h
      exact List.mem_cons_of_mem _ (ih h)

theorem GoMap.mem_set {V : Type} (m : GoMap V) (k : String) (v : V) (p : String × V)
    (hp : p ∈ GoMap.set m k v) : p = (k, v) ∨ p ∈ m := by
  induction m with
  | nil =>
    simp [GoMap.set] at hp
    exact Or.inl hp
  | cons q rest ih =>
    obtain ⟨k1, v1⟩ := q
    by_cases hk : k1 = k
    · simp [GoMap.set, hk] at hp
      rcases hp with hp | hp
      · exact Or.inl hp
      · exact Or.inr (List.mem_cons_of_mem _ hp)
    · simp [GoMap.set, hk] at hp
      rcases hp with hp | hp
      · exact Or.inr (by simp [hp])
      · rcases ih hp with h | h
        · exact Or.inl h
        · exact Or.inr (List.mem_cons_of_mem _ h)

/-! ### The aggregator -/

theorem wrapInt_eq (x : Int) (h1 : -(2 : Int) ^ 63 ≤ x) (h2 : x < (2 : Int) ^ 63) :
    wrapInt x = x := by
  unfold wrapInt
  norm_num at h1 h2 ⊢
  omega

theorem sumCounts_set (m : AppEventStatistic) (k : String) (v : Int) :
    sumCounts (GoMap.set m k v) = sumCounts m - (GoMap.get? m k).getD 0 + v := by
  induction m with
  | nil => simp [sumCounts, GoMap.set, GoMap.get?]
  | cons p rest ih =>
    obtain ⟨k1, v1⟩ := p
    by_cases h : k1 = k
    · simp [sumCounts, GoMap.set, GoMap.get?, h]
      ring
    · have ih2 := ih
      simp only [sumCounts] at ih2
      simp [sumCounts, GoMap.set, GoMap.get?, h, ih2]
      ring

theorem total_set (m : AppEventStatisticByDate) (k : String) (v : AppEventStatistic) :
    AppEventStatisticByDate.total (GoMap.set m k v) =
      AppEventStatisticByDate.total m - sumCounts ((GoMap.get? m k).getD []) + sumCounts v := by
  induction m with
  | nil => simp [AppEventStatisticByDate.total, GoMap.set, GoMap.get?, sumCounts]
  | cons p rest ih =>
    obtain ⟨k1, v1⟩ := p
    by_cases h : k1 = k
    · simp [AppEventStatisticByDate.total, GoMap.set, GoMap.get?, h]
      ring
    · have ih2 := ih
      simp only [AppEventStatisticByDate.total] at ih2
      simp [AppEventStatisticByDate.total, GoMap.set, GoMap.get?, h, ih2]
      ring

/-- The loop body rewritten with the table it reads: the inner map of the date is
replaced by itself with one cell incremented. -/
theorem statStep_eq (m : AppEventStatisticByDate) (e : AppEventEdges) :
    statStep m e =
      GoMap.set (match GoMap.get? m (dateKey e) with
                 | some _ => m
                 | none => GoMap.set m (dateKey e) [])
        (dateKey e)
        (GoMap.set ((GoMap.get? m (dateKey e)).getD []) e.node.type
          (wrapInt (AppEventStatisticByDate.cell m (dateKey e) e.node.type + 1))) := by
  unfold statStep AppEventStatisticByDate.cell AppEventStatistic.at
  cases h : GoMap.get? m (dateKey e) with
  | none => simp [h, GoMap.get?_set_self, GoMap.get?]
  | some inner => simp [h]

theorem cell_statStep (m : AppEventStatisticByDate) (e : AppEventEdges) (d k : String) :
    AppEventStatisticByDate.cell (statStep m e) d k =
      if dateKey e = d ∧ e.node.type = k then
        wrapInt (AppEventStatisticByDate.cell m d k + 1)
      else AppEventStatisticByDate.cell m d k := by
  rw [statStep_eq]
  unfold AppEventStatisticByDate.cell
  rw [GoMap.get?_set]
  by_cases hd : dateKey e = d
  · subst hd
    simp only [if_true, true_and, AppEventStatistic.at]
    rw [GoMap.get?_set]
    by_cases hk : e.node.type = k
    · subst hk
      cases h : GoMap.get? m (dateKey e) <;> simp
    · cases h : GoMap.get? m (dateKey e) <;> simp [hk, GoMap.get?]
  · simp only [hd, if_false, false_and]
    cases h : GoMap.get? m (dateKey e) with
    | none => simp [GoMap.get?_set_ne _ _ _ _ hd]
    | some inner => simp

theorem total_statStep (m : AppEventStatisticByDate) (e : AppEventEdges) :
    AppEventStatisticByDate.total (statStep m e) =
      AppEventStatisticByDate.total m
        - AppEventStatisticByDate.cell m (dateKey e) e.node.type
        + wrapInt (AppEventStatisticByDate.cell m (dateKey e) e.node.type + 1) := by
  rw [statStep_eq, total_set, sumCounts_set]
  unfold AppEventStatisticByDate.cell AppEventStatistic.at
  cases h : GoMap.get? m (dateKey e) with
  | none =>
    simp [GoMap.get?_set_self, total_set, h, sumCounts, GoMap.get?]
  | some inner =>
    simp [h]
    ring

theorem mem_keys_statStep (m : AppEventStatisticByDate) (e : AppEventEdges) (d : String) :
    d ∈ GoMap.keys (statStep m e) ↔ d = dateKey e ∨ d ∈ GoMap.keys m := by
  rw [statStep_eq, GoMap.mem_keys_set]
  cases h : GoMap.get? m (dateKey e) with
  | none =>
    simp only [GoMap.mem_keys_set]
    tauto
  | some inner => simp

theorem wellFormed_statStep (m : AppEventStatisticByDate) (e : AppEventEdges)
    (hm : AppEventStatisticByDate.WellFormed m) :
    AppEventStatisticByDate.WellFormed (statStep m e) := by
  obtain ⟨h1, h2⟩ := hm
  rw [statStep_eq]
  have hinner : (GoMap.keys ((GoMap.get? m (dateKey e)).getD [])).Nodup := by
    cases h : GoMap.get? m (dateKey e) with
    | none => simp [GoMap.keys]
    | some inner => exact h2 _ (GoMap.mem_of_get? m _ _ h)
  constructor
  · apply GoMap.nodup_keys_set
    cases h : GoMap.get? m (dateKey e) with
    | none => exact GoMap.nodup_keys_set m _ _ h1
    | some inner => exact h1
  · intro p hp
    rcases GoMap.mem_set _ _ _ _ hp with hp | hp
    · subst hp
      exact GoMap.nodup_keys_set _ _ _ hinner
    · cases h : GoMap.get? m (dateKey e) with
      | none =>
        rw [h] at hp
        rcases GoMap.mem_set _ _ _ _ hp with hp | hp
        · subst hp
          simp [GoMap.keys]
        · exact h2 p hp
      | some inner =>
        rw [h] at hp
        exact h2 p hp

theorem countEvents_cons (e : AppEventEdges) (es : List AppEventEdges) (d k : String) :
    countEvents (e :: es) d k =
      countEvents es d k + if dateKey e = d ∧ e.node.type = k then 1 else 0 := by
  unfold countEvents
  rw [List.countP_cons]
  simp

/-- Invariant of the loop of `getAppEventStatistic`, started from any table whose cells
are non-negative and leave room for `es.length` increments. -/
theorem foldl_statStep (es : List AppEventEdges) :
    ∀ m : AppEventStatisticByDate,
      (∀ d k, 0 ≤ AppEventStatisticByDate.cell m d k ∧
        AppEventStatisticByDate.cell m d k + es.length < (2 : Int) ^ 63) →
      (∀ d k, AppEventStatisticByDate.cell (es.foldl statStep m) d k =
        AppEventStatisticByDate.cell m d k + countEvents es d k) ∧
      AppEventStatisticByDate.total (es.foldl statStep m) =
        AppEventStatisticByDate.total m + es.length := by
  induction es with
  | nil => intro m _; simp [countEvents]
  | cons e rest ih =>
    intro m hm
    have hw : ∀ d k, wrapInt (AppEventStatisticByDate.cell m d k + 1) =
        AppEventStatisticByDate.cell m d k + 1 := by
      intro d k
      have h := hm d k
      apply wrapInt_eq
      · norm_num
        omega
      · have h3 := h.2
        simp only [List.length_cons, Nat.cast_add, Nat.cast_one] at h3
        omega
    have hstep : ∀ d k, 0 ≤ AppEventStatisticByDate.cell (statStep m e) d k ∧
        AppEventStatisticByDate.cell (statStep m e) d k + rest.length < (2 : Int) ^ 63 := by
      intro d k
      have h := hm d k
      have h3 := h.2
      simp only [List.length_cons, Nat.cast_add, Nat.cast_one] at h3
      rw [cell_statStep, hw]
      split <;> constructor <;> omega
    obtain ⟨ih1, ih2⟩ := ih (statStep m e) hstep
    constructor
    · intro d k
      rw [List.foldl_cons, ih1, cell_statStep, hw, countEvents_cons]
      split
      · push_cast
        ring
      · simp
    · rw [List.foldl_cons, ih2, total_statStep, hw]
      simp only [List.length_cons, Nat.cast_add, Nat.cast_one]
      ring

theorem foldl_statStep_keys (es : List AppEventEdges) :
    ∀ m : AppEventStatisticByDate, ∀ d : String,
      d ∈ GoMap.keys (es.foldl statStep m) ↔
        d ∈ GoMap.keys m ∨ ∃ e ∈ es, dateKey e = d := by
  induction es with
  | nil => intro m d; simp
  | cons e rest ih =>
    intro m d
    rw [List.foldl_cons, ih, mem_keys_statStep]
    simp only [List.mem_cons, exists_eq_or_imp]
    constructor
    · rintro ((h | h) | h)
      · exact Or.inr (Or.inl h.symm)
      · exact Or.inl h
      · exact Or.inr (Or.inr h)
    · rintro (h | h | h)
      · exact Or.inl (Or.inr h)
      · exact Or.inl (Or.inl h.symm)
      · exact Or.inr h

theorem foldl_statStep_wellFormed (es : List AppEventEdges) :
    ∀ m : AppEventStatisticByDate, AppEventStatisticByDate.WellFormed m →
      AppEventStatisticByDate.WellFormed (es.foldl statStep m) := by
  induction es with
  | nil => intro m hm; exact hm
  | cons e rest ih =>
    intro m hm
    rw [List.foldl_cons]
    exact ih _ (wellFormed_statStep m e hm)

theorem cell_nil (d k : String) : AppEventStatisticByDate.cell [] d k = 0 := by
  simp [AppEventStatisticByDate.cell, GoMap.get?, AppEventStatistic.at]

/-- Every cell of the result of `getAppEventStatistic` is the number of matching records. -/
theorem cell_getAppEventStatistic (edges : List AppEventEdges)
    (hlen : (edges.length : Int) < 2 ^ 63) (d k : String) :
    AppEventStatisticByDate.cell (getAppEventStatistic edges) d k = countEvents edges d k := by
  have h := (foldl_statStep edges [] (fun d k => by
    rw [cell_nil]
    constructor
    · exact le_refl _
    · simpa using hlen)).1 d k
  rw [cell_nil] at h
  simpa [getAppEventStatistic] using h

theorem total_getAppEventStatistic (edges : List AppEventEdges)
    (hlen : (edges.length : Int) < 2 ^ 63) :
    AppEventStatisticByDate.total (getAppEventStatistic edges) = edges.length := by
  have h := (foldl_statStep edges [] (fun d k => by
    rw [cell_nil]
    constructor
    · exact le_refl _
    · simpa using hlen)).2
  simpa [getAppEventStatistic, AppEventStatisticByDate.total] using h

theorem mem_keys_getAppEventStatistic (edges : List AppEventEdges) (d : String) :
    d ∈ GoMap.keys (getAppEventStatistic edges) ↔ ∃ e ∈ edges, dateKey e = d := by
  unfold getAppEventStatistic
  rw [foldl_statStep_keys]
  simp [GoMap.keys]

theorem wellFormed_getAppEventStatistic (edges : List AppEventEdges) :
    AppEventStatisticByDate.WellFormed (getAppEventStatistic edges) := by
  unfold getAppEventStatistic
  apply foldl_statStep_wellFormed
  constructor
  · simp [GoMap.keys]
  · intro p hp
    simp at hp

theorem cell_insert_record (pre post : List AppEventEdges) (e : AppEventEdges)
    (hlen : ((pre ++ e :: post).length : Int) < 2 ^ 63) (d k : String) :
    AppEventStatisticByDate.cell (getAppEventStatistic (pre ++ e :: post)) d k =
      AppEventStatisticByDate.cell (getAppEventStatistic (pre ++ post)) d k +
        if dateKey e = d ∧ e.node.type = k then 1 else 0 := by
  have hlen2 : (((pre ++ post).length : Nat) : Int) < 2 ^ 63 := by
    have h : (pre ++ post).length ≤ (pre ++ e :: post).length := by simp
    have h2 : (((pre ++ post).length : Nat) : Int) ≤ ((pre ++ e :: post).length : Nat) := by
      exact_mod_cast h
    omega
  rw [cell_getAppEventStatistic _ hlen, cell_getAppEventStatistic _ hlen2]
  have hc : countEvents (pre ++ e :: post) d k =
      countEvents (pre ++ post) d k + if dateKey e = d ∧ e.node.type = k then 1 else 0 := by
    unfold countEvents
    rw [List.countP_append, List.countP_append, List.countP_cons]
    simp only [decide_eq_true_eq]
    omega
  rw [hc]
  split <;> simp

/-! ### Sorting of the date keys -/

theorem ltChars_iff (a : List Char) : ∀ b : List Char, ltChars a b = true ↔ a < b := by
  induction a with
  | nil =>
    intro b
    cases b with
    | nil => simp [ltChars]
    | cons d ds => simp [ltChars, List.nil_lt_cons]
  | cons c cs ih =>
    intro b
    cases b with
    | nil =>
      simp only [ltChars]
      constructor
      · intro h; simp at h
      · intro h; exact absurd h (List.Lex.not_nil_right _ _)
    | cons d ds =>
      simp only [ltChars]
      have hlt : c.toNat < d.toNat ↔ c < d := Iff.rfl
      by_cases h1 : c.toNat < d.toNat
      · simp only [h1, if_true, true_iff]
        exact List.Lex.rel (hlt.mp h1)
      · simp only [h1, if_false]
        by_cases h2 : c = d
        · subst h2
          simp only [if_true]
          rw [ih]
          exact List.Lex.cons_iff.symm
        · simp only [h2, if_false]
          constructor
          · intro h; simp at h
          · intro h
            cases h with
            | cons h3 => exact absurd rfl h2
            | rel h3 => exact absurd (hlt.mpr h3) h1

/-- The comparison of the embedding is the order of `String`. -/
theorem stringLess_iff (a b : String) : stringLess a b = true ↔ a < b := by
  unfold stringLess
  rw [ltChars_iff, String.lt_iff_toList_lt]
  rfl

theorem stringLess_eq_false_iff (a b : String) : stringLess b a = false ↔ a ≤ b := by
  rw [← not_lt, ← stringLess_iff]
  simp

theorem sortStrings_sorted (dates : List String) :
    (sortStrings dates).Sorted (fun a b => a ≤ b) := by
  haveI : IsTotal String (fun a b => stringLess b a = false) :=
    ⟨fun a b => by
      simp only [stringLess_eq_false_iff]
      exact le_total a b⟩
  haveI : IsTrans String (fun a b => stringLess b a = false) :=
    ⟨fun a b c => by
      simp only [stringLess_eq_false_iff]
      exact le_trans⟩
  have h := List.sorted_insertionSort (fun a b : String => stringLess b a = false) dates
  exact List.Pairwise.imp (fun {a b} hab => (stringLess_eq_false_iff a b).mp hab) h

theorem sortStrings_perm (dates : List String) : (sortStrings dates).Perm dates :=
  List.perm_insertionSort (fun a b : String => stringLess b a = false) dates

/-- The result of `sort.Strings` depends only on the strings present, not on the order
in which the map iteration delivered them. -/
theorem sortStrings_perm_eq (l1 l2 : List String) (h : l1.Perm l2) :
    sortStrings l1 = sortStrings l2 :=
  List.eq_of_perm_of_sorted
    (((sortStrings_perm l1).trans h).trans (sortStrings_perm l2).symm)
    (sortStrings_sorted l1) (sortStrings_sorted l2)

theorem sortedDates_strict (edges : List AppEventEdges) :
    (sortedDates (getAppEventStatistic edges)).Sorted (fun a b => a < b) := by
  apply List.Sorted.lt_of_le (sortStrings_sorted _)
  exact (sortStrings_perm _).nodup_iff.mpr (wellFormed_getAppEventStatistic edges).1

theorem mem_sortedDates (edges : List AppEventEdges) (d : String) :
    d ∈ sortedDates (getAppEventStatistic edges) ↔ ∃ e ∈ edges, dateKey e = d := by
  unfold sortedDates
  rw [(sortStrings_perm _).mem_iff, mem_keys_getAppEventStatistic]

/-! ### The date key and the +7:00 local date -/

/-- Inside the range where the 64-bit arithmetic does not wrap, the key computed by lines
55-56 is the `YYYY-MM-DD` text of the +7:00 local date of the instant. -/
theorem dateKey_eq_localDate (e : AppEventEdges) (h : inDateRange e.node.occurredAt.unix) :
    dateKey e = localDateGmt7 e.node.occurredAt.unix := by
  obtain ⟨h1, h2⟩ := h
  have hd : absDate (e.node.occurredAt.In gmt7).abs
      = civilFromDays (localDay e.node.occurredAt.unix) := by
    unfold absDate Time.abs Time.In localDay unixToAbsolute gmt7
    simp only []
    congr 1
    norm_num at h2 ⊢
    omega
  unfold dateKey Time.FormatDate localDateGmt7 ymd
  rw [hd]

/-- The key depends on the instant only, not on the location or the nanoseconds carried by
the timestamp. -/
theorem dateKey_congr (e1 e2 : AppEventEdges)
    (h : e1.node.occurredAt.unix = e2.node.occurredAt.unix) : dateKey e1 = dateKey e2 := by
  unfold dateKey Time.FormatDate Time.abs Time.In
  simp only [h]

/-- At the smallest `int64` instant the sum of `Time.abs` wraps, as it does in Go. -/
theorem dateKey_minInt64 (kind cursor : String) (nsec : Nat) (offset : Int) :
    dateKey { node := { type := kind,
                        occurredAt := { unix := -9223372036854775808, nsec := nsec,
                                        offset := offset } },
              cursor := cursor } = "292277026596-12-04" := by
  exact (dateKey_congr
    { node := { type := kind, occurredAt := { unix := -9223372036854775808, nsec := nsec,
                                              offset := offset } }, cursor := cursor }
    { node := { type := "", occurredAt := { unix := -9223372036854775808, nsec := 0,
                                            offset := 0 } }, cursor := "" } rfl).trans
    (by decide)

theorem countEvents_eq_countRecords (edges : List AppEventEdges)
    (hrange : ∀ e ∈ edges, inDateRange e.node.occurredAt.unix) (d k : String) :
    countEvents edges d k = countRecords edges d k := by
  unfold countEvents countRecords
  apply List.countP_congr
  intro e he
  rw [dateKey_eq_localDate e (hrange e he)]

theorem rowData_eq_expectedRow (edges : List AppEventEdges)
    (hlen : (edges.length : Int) < 2 ^ 63)
    (hrange : ∀ e ∈ edges, inDateRange e.node.occurredAt.unix) (d : String) :
    rowData (getAppEventStatistic edges) d = expectedRow edges d := by
  have h := cell_getAppEventStatistic edges hlen d
  unfold AppEventStatisticByDate.cell at h
  simp [rowData, expectedRow, h, countEvents_eq_countRecords edges hrange]

theorem mem_sortedDates_local (edges : List AppEventEdges)
    (hrange : ∀ e ∈ edges, inDateRange e.node.occurredAt.unix) (d : String) :
    d ∈ sortedDates (getAppEventStatistic edges) ↔
      ∃ e ∈ edges, localDateGmt7 e.node.occurredAt.unix = d := by
  rw [mem_sortedDates]
  constructor
  · rintro ⟨e, he, hk⟩
    exact ⟨e, he, by rw [← dateKey_eq_localDate e (hrange e he)]; exact hk⟩
  · rintro ⟨e, he, hk⟩
    exact ⟨e, he, by rw [dateKey_eq_localDate e (hrange e he)]; exact hk⟩

/-! ### The header check -/

theorem headerRowMatches_iff (row : Row) : headerRowMatches row = true ↔ row = headerLiteral := by
  rcases row with _ | ⟨a, _ | ⟨b, _ | ⟨c, _ | ⟨d, _ | ⟨e, _ | ⟨f, r⟩⟩⟩⟩⟩⟩ <;>
    simp [headerRowMatches, headerCellsMatch, expectedHeaders, headerLiteral]

theorem headerOk_iff (headerRange : List Row) :
    headerOk headerRange = true ↔ ∃ rest, headerRange = headerLiteral :: rest := by
  cases headerRange with
  | nil => simp [headerOk]
  | cons row rest => simp [headerOk, headerRowMatches_iff]

/-! ### The map from dates to row numbers -/

theorem buildDateRowMap_cons (row : Row) (rest : List Row) (i : Nat) (m : GoMap Nat) :
    buildDateRowMap (row :: rest) i m =
      buildDateRowMap rest (i + 1)
        (match colA row with
         | some date => GoMap.set m date (i + 1)
         | none => m) := by
  rcases row with _ | ⟨c, cs⟩
  · simp [buildDateRowMap, colA]
  · cases c <;> simp [buildDateRowMap, colA]

theorem buildDateRowMap_append (rows : List Row) (row : Row) :
    ∀ (i : Nat) (m : GoMap Nat),
      buildDateRowMap (rows ++ [row]) i m =
        match colA row with
        | some date => GoMap.set (buildDateRowMap rows i m) date (i + rows.length + 1)
        | none => buildDateRowMap rows i m := by
  induction rows with
  | nil =>
    intro i m
    rw [List.nil_append, buildDateRowMap_cons]
    cases colA row <;> simp [buildDateRowMap]
  | cons r rest ih =>
    intro i m
    rw [List.cons_append, buildDateRowMap_cons, ih, buildDateRowMap_cons]
    have e : i + 1 + rest.length + 1 = i + (r :: rest).length + 1 := by
      simp only [List.length_cons]
      omega
    rw [e]

theorem holdsDate_le_length (existing : List Row) (r : Nat) (d : String)
    (h : holdsDate existing r d) : r ≤ existing.length := by
  obtain ⟨h1, h2⟩ := h
  by_contra hc
  have : existing[r - 1]? = none := by
    rw [List.getElem?_eq_none_iff]
    omega
  rw [this] at h2
  simp at h2

theorem holdsDate_append_old (rows : List Row) (row : Row) (r : Nat) (d : String)
    (hr : r ≤ rows.length) : holdsDate (rows ++ [row]) r d ↔ holdsDate rows r d := by
  unfold holdsDate
  by_cases h1 : 1 ≤ r
  · have : (rows ++ [row])[r - 1]? = rows[r - 1]? :=
      List.getElem?_append_left (by omega)
    rw [this]
  · simp [h1]

theorem holdsDate_append_new (rows : List Row) (row : Row) (d : String) :
    holdsDate (rows ++ [row]) (rows.length + 1) d ↔ colA row = some d := by
  unfold holdsDate
  have : (rows ++ [row])[rows.length + 1 - 1]? = some row := by
    simp
  rw [this]
  simp

theorem holdsDate_append (rows : List Row) (row : Row) (r : Nat) (d : String) :
    holdsDate (rows ++ [row]) r d ↔
      holdsDate rows r d ∨ (r = rows.length + 1 ∧ colA row = some d) := by
  by_cases hr : r ≤ rows.length
  · rw [holdsDate_append_old rows row r d hr]
    constructor
    · exact Or.inl
    · rintro (h | ⟨h, _⟩)
      · exact h
      · omega
  · constructor
    · intro h
      have hle := holdsDate_le_length _ _ _ h
      simp only [List.length_append, List.length_singleton] at hle
      have hr2 : r = rows.length + 1 := by omega
      subst hr2
      exact Or.inr ⟨rfl, (holdsDate_append_new rows row d).mp h⟩
    · rintro (h | ⟨h, hc⟩)
      · exact absurd (holdsDate_le_length _ _ _ h) hr
      · subst h
        exact (holdsDate_append_new rows row d).mpr hc

/-- The map built by lines 254-260 sends a date to the last row whose column A holds it,
and has no entry for a date that no row holds. -/
theorem dateRowMapOf_spec (existing : List Row) (d : String) :
    (∀ r, GoMap.get? (dateRowMapOf existing) d = some r ↔
      holdsDate existing r d ∧ ∀ r2, holdsDate existing r2 d → r2 ≤ r) ∧
    (GoMap.get? (dateRowMapOf existing) d = none ↔ ∀ r, ¬ holdsDate existing r d) := by
  induction existing using List.reverseRecOn with
  | nil =>
    constructor
    · intro r
      simp [dateRowMapOf, buildDateRowMap, GoMap.get?, holdsDate]
    · simp [dateRowMapOf, buildDateRowMap, GoMap.get?, holdsDate]
  | append_singleton rows row ih =>
    obtain ⟨ih1, ih2⟩ := ih
    have hb : dateRowMapOf (rows ++ [row]) =
        match colA row with
        | some date => GoMap.set (dateRowMapOf rows) date (rows.length + 1)
        | none => dateRowMapOf rows := by
      unfold dateRowMapOf
      rw [buildDateRowMap_append]
      simp
    rw [hb]
    cases hc : colA row with
    | none =>
      simp only [holdsDate_append, hc]
      simp only [reduceCtorEq, and_false, or_false]
      exact ⟨ih1, ih2⟩
    | some d0 =>
      simp only [holdsDate_append, hc, GoMap.get?_set]
      by_cases hd : d0 = d
      · subst hd
        simp only [if_true, Option.some.injEq, and_true]
        constructor
        · intro r
          constructor
          · intro h
            subst h
            refine ⟨Or.inr rfl, ?_⟩
            rintro r2 (h2 | h2)
            · have := holdsDate_le_length _ _ _ h2
              omega
            · omega
          · rintro ⟨_, hmax⟩
            have h1 := hmax (rows.length + 1) (Or.inr rfl)
            rename_i hh
            rcases hh with h | h
            · have := holdsDate_le_length _ _ _ h
              omega
            · exact h.symm
        · simp only [reduceCtorEq, false_iff, not_forall, not_not]
          exact ⟨rows.length + 1, Or.inr rfl⟩
      · simp only [hd, if_false, Option.some.injEq, and_false, or_false]
        exact ⟨ih1, ih2⟩

theorem inColumnA_iff (existing : List Row) (d : String) :
    inColumnA existing d = true ↔ ∃ r, holdsDate existing r d := by
  unfold inColumnA holdsDate
  rw [List.any_eq_true]
  constructor
  · rintro ⟨row, hmem, hrow⟩
    obtain ⟨n, hn⟩ := List.mem_iff_getElem?.mp hmem
    refine ⟨n + 1, by omega, ?_⟩
    simp only [Nat.add_sub_cancel, hn, Option.some_bind]
    simpa using hrow
  · rintro ⟨r, _, hr⟩
    cases hg : existing[r - 1]? with
    | none =>
      rw [hg] at hr
      simp at hr
    | some row =>
      rw [hg] at hr
      exact ⟨row, List.mem_iff_getElem?.mpr ⟨r - 1, hg⟩, by simpa using hr⟩

theorem dateRowMapOf_isNone (existing : List Row) (d : String) :
    (GoMap.get? (dateRowMapOf existing) d).isNone = !inColumnA existing d := by
  have h := (dateRowMapOf_spec existing d).2
  have h2 := inColumnA_iff existing d
  cases hg : GoMap.get? (dateRowMapOf existing) d with
  | none =>
    have h3 := h.mp hg
    cases hi : inColumnA existing d with
    | false => simp
    | true =>
      obtain ⟨r, hr⟩ := h2.mp hi
      exact absurd hr (h3 r)
  | some r =>
    have h3 := ((dateRowMapOf_spec existing d).1 r).mp hg
    have h4 := h2.mpr ⟨r, h3.1⟩
    simp [h4]

theorem dateRowMapOf_le_length (existing : List Row) (d : String) (r : Nat)
    (h : GoMap.get? (dateRowMapOf existing) d = some r) : 1 ≤ r ∧ r ≤ existing.length := by
  have h3 := ((dateRowMapOf_spec existing d).1 r).mp h
  exact ⟨h3.1.1, holdsDate_le_length _ _ _ h3.1⟩

/-! ### The write loop -/

theorem processDates_noFault (sheetName : String) (stat : AppEventStatisticByDate)
    (dateRowMap : GoMap Nat) (dates : List String) :
    ∀ (calls : List Call) (values : List Row),
      processDates noFault sheetName stat dateRowMap dates calls values =
        (calls ++ updatesOf sheetName stat dateRowMap dates,
         Except.ok (values ++ queueOf stat dateRowMap dates)) := by
  induction dates with
  | nil => intro calls values; simp [processDates, updatesOf, queueOf]
  | cons d rest ih =>
    intro calls values
    cases hg : GoMap.get? dateRowMap d with
    | none =>
      simp only [processDates, hg]
      rw [ih]
      simp [updatesOf, queueOf, hg]
    | some r =>
      simp only [processDates, hg, noFault]
      simp only [Bool.false_eq_true, if_false]
      have ih2 := ih (calls ++ [Call.update sheetName r [rowData stat d]]) values
      simp only [noFault] at ih2
      rw [ih2]
      simp [updatesOf, queueOf, hg]

/-- The requests sent by the loop, whatever requests fail: the ones sent before, then
only updates of single rows built by `rowData` at rows taken from the map. -/
theorem processDates_calls (fails : Faults) (sheetName : String)
    (stat : AppEventStatisticByDate) (dateRowMap : GoMap Nat) (dates : List String) :
    ∀ (calls : List Call) (values : List Row),
      ∃ extra : List Call,
        (processDates fails sheetName stat dateRowMap dates calls values).1 = calls ++ extra ∧
        ∀ c ∈ extra, ∃ d r, GoMap.get? dateRowMap d = some r ∧
          c = Call.update sheetName r [rowData stat d] := by
  induction dates with
  | nil => intro calls values; exact ⟨[], by simp [processDates]⟩
  | cons d rest ih =>
    intro calls values
    cases hg : GoMap.get? dateRowMap d with
    | none =>
      simp only [processDates, hg]
      exact ih calls _
    | some r =>
      simp only [processDates, hg]
      by_cases hf : fails calls.length = true
      · simp only [hf, if_true]
        refine ⟨[Call.update sheetName r [rowData stat d]], rfl, ?_⟩
        intro c hc
        simp only [List.mem_singleton] at hc
        exact ⟨d, r, hg, hc⟩
      · simp only [hf, Bool.false_eq_true, if_false]
        obtain ⟨extra, h1, h2⟩ := ih (calls ++ [Call.update sheetName r [rowData stat d]]) values
        refine ⟨Call.update sheetName r [rowData stat d] :: extra, ?_, ?_⟩
        · rw [h1]
          simp
        · intro c hc
          rcases List.mem_cons.mp hc with hc | hc
          · exact ⟨d, r, hg, hc⟩
          · exact h2 c hc

theorem writeToGoogleSheets_noFault (sheetName : String) (headerRange existingData : List Row)
    (dates : List String) (stat : AppEventStatisticByDate) :
    writeToGoogleSheets noFault sheetName headerRange existingData dates stat =
      { calls :=
          (if headerOk headerRange then [] else [Call.update sheetName 1 [headerLiteral]]) ++
          updatesOf sheetName stat (dateRowMapOf existingData) dates ++
          (if queueOf stat (dateRowMapOf existingData) dates = [] then []
           else [Call.append sheetName (nextRowOf headerRange existingData)
                   (queueOf stat (dateRowMapOf existingData) dates)]),
        nextRow := some (nextRowOf headerRange existingData),
        err := none } := by
  unfold writeToGoogleSheets
  simp only [processDates_noFault]
  simp only [noFault, Bool.and_false, Bool.false_eq_true, if_false, List.nil_append]
  cases hq : queueOf stat (dateRowMapOf existingData) dates with
  | nil => simp
  | cons q qs => simp

theorem updatesOf_eq (sheetName : String) (stat : AppEventStatisticByDate)
    (existing : List Row) (dates : List String) :
    updatesOf sheetName stat (dateRowMapOf existing) dates =
      (dates.filter (fun d => inColumnA existing d)).map (fun d =>
        Call.update sheetName ((GoMap.get? (dateRowMapOf existing) d).getD 0)
          [rowData stat d]) := by
  induction dates with
  | nil => simp [updatesOf]
  | cons d rest ih =>
    have h := dateRowMapOf_isNone existing d
    unfold updatesOf at ih ⊢
    cases hg : GoMap.get? (dateRowMapOf existing) d with
    | none =>
      rw [hg] at h
      have h2 : inColumnA existing d = false := by simpa using h
      simp [List.filterMap_cons, hg, h2, ih]
    | some r =>
      rw [hg] at h
      have h2 : inColumnA existing d = true := by simpa using h
      simp [List.filterMap_cons, hg, h2, ih]

theorem queueOf_eq (stat : AppEventStatisticByDate) (existing : List Row)
    (dates : List String) :
    queueOf stat (dateRowMapOf existing) dates =
      (dates.filter (fun d => !inColumnA existing d)).map (rowData stat) := by
  unfold queueOf
  congr 1
  apply List.filter_congr
  intro d _
  exact dateRowMapOf_isNone existing d

theorem rowData_ne_headerLiteral (stat : AppEventStatisticByDate) (d : String) :
    rowData stat d ≠ headerLiteral := by
  simp [rowData, headerLiteral]

/-! ### The requests of `writeToGoogleSheets`, whatever requests fail -/

theorem writeToGoogleSheets_nextRow (fails : Faults) (sheetName : String)
    (headerRange existingData : List Row) (dates : List String)
    (stat : AppEventStatisticByDate) :
    (writeToGoogleSheets fails sheetName headerRange existingData dates stat).nextRow =
      if (!headerOk headerRange && fails 0) = true then none
      else some (nextRowOf headerRange existingData) := by
  simp only [writeToGoogleSheets]
  by_cases hc : (!headerOk headerRange && fails 0) = true
  · rw [if_pos hc, if_pos hc]
  · rw [if_neg hc, if_neg hc]
    rcases processDates fails sheetName stat (dateRowMapOf existingData) dates
      (if headerOk headerRange then [] else [Call.update sheetName 1 [headerLiteral]]) []
      with ⟨calls, e | values⟩
    · rfl
    · simp only []
      split
      · split <;> rfl
      · rfl

theorem writeToGoogleSheets_calls (fails : Faults) (sheetName : String)
    (headerRange existingData : List Row) (dates : List String)
    (stat : AppEventStatisticByDate) :
    ∃ extra tail : List Call,
      (writeToGoogleSheets fails sheetName headerRange existingData dates stat).calls =
        (if headerOk headerRange then [] else [Call.update sheetName 1 [headerLiteral]])
          ++ extra ++ tail ∧
      (∀ c ∈ extra, ∃ d r, GoMap.get? (dateRowMapOf existingData) d = some r ∧
        c = Call.update sheetName r [rowData stat d]) ∧
      (tail = [] ∨ ∃ values,
        tail = [Call.append sheetName (nextRowOf headerRange existingData) values]) := by
  simp only [writeToGoogleSheets]
  by_cases hc : (!headerOk headerRange && fails 0) = true
  · rw [if_pos hc]
    exact ⟨[], [], by simp, by simp, Or.inl rfl⟩
  · rw [if_neg hc]
    obtain ⟨extra, h1, h2⟩ := processDates_calls fails sheetName stat
      (dateRowMapOf existingData) dates
      (if headerOk headerRange then [] else [Call.update sheetName 1 [headerLiteral]]) []
    rcases hp : processDates fails sheetName stat (dateRowMapOf existingData) dates
      (if headerOk headerRange then [] else [Call.update sheetName 1 [headerLiteral]]) []
      with ⟨calls, e | values⟩
    · rw [hp] at h1
      simp only at h1
      exact ⟨extra, [], by simp [h1], h2, Or.inl rfl⟩
    · rw [hp] at h1
      simp only at h1
      simp only []
      split
      · split
        · exact ⟨extra, [Call.append sheetName (nextRowOf headerRange existingData) values],
            by simp [h1], h2, Or.inr ⟨values, rfl⟩⟩
        · exact ⟨extra, [Call.append sheetName (nextRowOf headerRange existingData) values],
            by simp [h1], h2, Or.inr ⟨values, rfl⟩⟩
      · exact ⟨extra, [], by simp [h1], h2, Or.inl rfl⟩

theorem append_mem_calls (fails : Faults) (sheetName : String)
    (headerRange existingData : List Row) (dates : List String)
    (stat : AppEventStatisticByDate) (sheet : String) (r : Nat) (values : List Row)
    (h : Call.append sheet r values ∈
      (writeToGoogleSheets fails sheetName headerRange existingData dates stat).calls) :
    r = nextRowOf headerRange existingData := by
  obtain ⟨extra, tail, h1, h2, h3⟩ :=
    writeToGoogleSheets_calls fails sheetName headerRange existingData dates stat
  rw [h1] at h
  simp only [List.mem_append] at h
  rcases h with (h | h) | h
  · split at h <;> simp at h
  · obtain ⟨d, r2, _, hc⟩ := h2 _ h
    simp at hc
  · rcases h3 with h3 | ⟨vs, h3⟩
    · simp [h3] at h
    · rw [h3] at h
      simp only [List.mem_singleton] at h
      injection h with _ hr _

/-! ### Claims about the requests sent to the sheet -/

theorem calls_after_header (fails : Faults) (sheetName : String)
    (headerRange existingData : List Row) (dates : List String)
    (stat : AppEventStatisticByDate) :
    ∃ rest : List Call,
      (writeToGoogleSheets fails sheetName headerRange existingData dates stat).calls =
        (if headerOk headerRange then [] else [Call.update sheetName 1 [headerLiteral]])
          ++ rest ∧
      Call.update sheetName 1 [headerLiteral] ∉ rest := by
  obtain ⟨extra, tail, h1, h2, h3⟩ :=
    writeToGoogleSheets_calls fails sheetName headerRange existingData dates stat
  refine ⟨extra ++ tail, by rw [h1, List.append_assoc], ?_⟩
  have hextra : Call.update sheetName 1 [headerLiteral] ∉ extra := by
    intro hm
    obtain ⟨d, r, _, hc⟩ := h2 _ hm
    injection hc with _ _ hv
    simp only [List.cons.injEq, and_true] at hv
    exact rowData_ne_headerLiteral stat d hv.symm
  have htail : Call.update sheetName 1 [headerLiteral] ∉ tail := by
    rcases h3 with h | ⟨vs, h⟩ <;> simp [h]
  simp [hextra, htail]

/-- C5: `headerRowMatches row` is true exactly when `row` is the five strings "Date",
"Installs", "Closed", "Reopened", "Uninstalls" in that order.  When the first row read from
the tab matches, `writeToGoogleSheets` sends no header write and the next-free-row pointer
is the number of existing rows plus one; for any other first row (none at all, a shorter,
longer or reordered one, or one with a cell that is not a string) its first request
writes the header literal to `A1:E1` and, once that request has succeeded, the pointer
is 2. -/
theorem c5_header_check (fails : Faults) (sheetName : String)
    (headerRange existingData : List Row) (dates : List String)
    (stat : AppEventStatisticByDate) (row : Row) :
    (headerRowMatches row = true ↔
      row = [Cell.str "Date", Cell.str "Installs", Cell.str "Closed", Cell.str "Reopened",
             Cell.str "Uninstalls"]) ∧
    (headerOk headerRange = true ↔ ∃ rest, headerRange = headerLiteral :: rest) ∧
    (∃ rest : List Call,
      (writeToGoogleSheets fails sheetName headerRange existingData dates stat).calls =
        (if headerOk headerRange then [] else [Call.update sheetName 1 [headerLiteral]])
          ++ rest ∧
      Call.update sheetName 1 [headerLiteral] ∉ rest) ∧
    ((writeToGoogleSheets fails sheetName headerRange existingData dates stat).nextRow =
      if headerOk headerRange = true then some (existingData.length + 1)
      else if fails 0 = true then none else some 2) ∧
    headerOk [] = false ∧
    headerOk [[Cell.str "Date", Cell.str "Installs", Cell.str "Closed",
               Cell.str "Reopened"]] = false ∧
    headerOk [[Cell.str "Date", Cell.str "Installs", Cell.str "Closed", Cell.str "Reopened",
               Cell.str "Uninstalls", Cell.str "Total"]] = false ∧
    headerOk [[Cell.str "Date", Cell.str "Closed", Cell.str "Installs", Cell.str "Reopened",
               Cell.str "Uninstalls"]] = false ∧
    headerOk [[Cell.str "Date", Cell.str "Installs", Cell.str "Closed", Cell.int 0,
               Cell.str "Uninstalls"]] = false := by
  refine ⟨headerRowMatches_iff row, headerOk_iff headerRange, ?_, ?_,
    by decide, by decide, by decide, by decide, by decide⟩
  · exact calls_after_header fails sheetName headerRange existingData dates stat
  · rw [writeToGoogleSheets_nextRow]
    cases hok : headerOk headerRange with
    | false =>
      cases hf : fails 0 <;> simp [nextRowOf, hok]
    | true => simp [nextRowOf, hok]

/-- C6: on a run without remote failure, for every date list and every existing tab
content, the requests sent are, in this order: the header write if the header check
failed; for each date whose string is held by column A of some existing row, in the order
of the list, one update of cells A..E of the last such row (1-indexed) with the five
cells of that date; and, if some date is held by no row, one single append, addressed at
the next-free-row pointer, of the five-cell rows of exactly those dates in the order of
the list.  No append is sent when no date is left over, and every date of the list gets
exactly one of the two kinds of write. -/
theorem c6_upsert_partition (sheetName : String) (headerRange existingData : List Row)
    (dates : List String) (stat : AppEventStatisticByDate) :
    ∃ rowOf : String → Nat,
      (∀ d, inColumnA existingData d = true →
        holdsDate existingData (rowOf d) d ∧
        ∀ r2, holdsDate existingData r2 d → r2 ≤ rowOf d) ∧
      (writeToGoogleSheets noFault sheetName headerRange existingData dates stat).calls =
        (if headerOk headerRange then [] else [Call.update sheetName 1 [headerLiteral]]) ++
        (dates.filter (fun d => inColumnA existingData d)).map
          (fun d => Call.update sheetName (rowOf d) [rowData stat d]) ++
        (if dates.filter (fun d => !inColumnA existingData d) = [] then []
         else [Call.append sheetName (nextRowOf headerRange existingData)
                ((dates.filter (fun d => !inColumnA existingData d)).map (rowData stat))]) ∧
      (writeToGoogleSheets noFault sheetName headerRange existingData dates stat).err = none ∧
      (dates.filter (fun d => inColumnA existingData d)).length +
        (dates.filter (fun d => !inColumnA existingData d)).length = dates.length := by
  refine ⟨fun d => (GoMap.get? (dateRowMapOf existingData) d).getD 0, ?_, ?_, ?_, ?_⟩
  · intro d hd
    cases hg : GoMap.get? (dateRowMapOf existingData) d with
    | none =>
      have h := dateRowMapOf_isNone existingData d
      rw [hg, hd] at h
      simp at h
    | some r =>
      have h := ((dateRowMapOf_spec existingData d).1 r).mp hg
      simpa [hg] using h
  · rw [writeToGoogleSheets_noFault, updatesOf_eq, queueOf_eq]
    simp only [List.map_eq_nil_iff]
  · rw [writeToGoogleSheets_noFault]
  · have h := @List.length_eq_length_filter_add String dates
      (fun d => inColumnA existingData d)
    simp only at h
    omega

/-- C10, as stated, fails: on a tab of three rows whose first row is not the header, the
pointer is 2, the append of the row for 2024-05-02 is addressed at row 2, and row 2 is
an existing row, recorded in the date-to-row map for 2024-05-01 and updated just before. -/
theorem c10_counterexample :
    ¬ (headerlessTab.length < nextRowOf (Tab.readHeader headerlessTab) headerlessTab) ∧
    GoMap.get? (dateRowMapOf headerlessTab) "2024-05-01" = some 2 ∧
    (writeToGoogleSheets noFault "App" (Tab.readHeader headerlessTab) headerlessTab
        (sortedDates twoDayTable) twoDayTable).calls =
      [Call.update "App" 1 [headerLiteral],
       Call.update "App" 2
         [[Cell.str "2024-05-01", Cell.int 1, Cell.int 0, Cell.int 0, Cell.int 0]],
       Call.append "App" 2
         [[Cell.str "2024-05-02", Cell.int 2, Cell.int 0, Cell.int 0, Cell.int 1]]] := by
  refine ⟨by decide, by decide, by decide⟩

/-- C10, amended: every append sent by `writeToGoogleSheets` is addressed at the
next-free-row pointer, which is the number of existing rows plus one when the first row
read from the tab is the header and 2 otherwise; every row recorded in the date-to-row map
is an existing row; hence the pointer is strictly greater than the number of every
existing row, and of every row of the map, exactly when the first row is the header or
the tab has at most one row. -/
theorem c10_next_row_pointer (fails : Faults) (sheetName : String)
    (headerRange existingData : List Row) (dates : List String)
    (stat : AppEventStatisticByDate) :
    (∀ sheet r values, Call.append sheet r values ∈
        (writeToGoogleSheets fails sheetName headerRange existingData dates stat).calls →
      r = nextRowOf headerRange existingData) ∧
    nextRowOf headerRange existingData =
      (if headerOk headerRange then existingData.length + 1 else 2) ∧
    (∀ d r, GoMap.get? (dateRowMapOf existingData) d = some r →
      1 ≤ r ∧ r ≤ existingData.length) ∧
    (existingData.length < nextRowOf headerRange existingData ↔
      headerOk headerRange = true ∨ existingData.length ≤ 1) := by
  refine ⟨?_, rfl, ?_, ?_⟩
  · intro sheet r values h
    exact append_mem_calls fails sheetName headerRange existingData dates stat sheet r values h
  · intro d r h
    exact dateRowMapOf_le_length existingData d r h
  · unfold nextRowOf
    cases headerOk headerRange
    · simp
      omega
    · simp


/-! ### The remote tab -/

theorem Tab.setRow_length (tab : List Row) (r : Nat) (row : Row) (h1 : 1 ≤ r)
    (h2 : r ≤ tab.length) : (Tab.setRow tab r row).length = tab.length := by
  unfold Tab.setRow
  have h0 : ¬ r = 0 := by omega
  simp [h0, h2]

theorem Tab.setRow_getElem? (tab : List Row) (r : Nat) (row : Row) (h1 : 1 ≤ r)
    (h2 : r ≤ tab.length) (j : Nat) :
    (Tab.setRow tab r row)[j]? = if j = r - 1 then some row else tab[j]? := by
  unfold Tab.setRow
  have h0 : ¬ r = 0 := by omega
  simp only [h0, h2, if_false, if_true]
  rw [List.getElem?_set]
  by_cases hj : r - 1 = j
  · subst hj
    have : r - 1 < tab.length := by omega
    simp [this]
  · have hj2 : ¬ j = r - 1 := fun e => hj e.symm
    simp [hj, hj2]

theorem Tab.writeBlock_single (tab : List Row) (r : Nat) (row : Row) :
    Tab.writeBlock tab r [row] = Tab.setRow tab r row := by
  simp [Tab.writeBlock]

theorem colA_rowData (stat : AppEventStatisticByDate) (d : String) :
    colA (rowData stat d) = some d := by
  simp [rowData, colA]

theorem dateRowMapOf_injective (existing : List Row) (d1 d2 : String) (r : Nat)
    (h1 : GoMap.get? (dateRowMapOf existing) d1 = some r)
    (h2 : GoMap.get? (dateRowMapOf existing) d2 = some r) : d1 = d2 := by
  have a := (((dateRowMapOf_spec existing d1).1 r).mp h1).1.2
  have b := (((dateRowMapOf_spec existing d2).1 r).mp h2).1.2
  rw [a] at b
  exact Option.some.inj b

theorem updatesOf_append (sheetName : String) (stat : AppEventStatisticByDate)
    (m : GoMap Nat) (ds : List String) (d : String) :
    updatesOf sheetName stat m (ds ++ [d]) =
      updatesOf sheetName stat m ds ++
        match GoMap.get? m d with
        | some r => [Call.update sheetName r [rowData stat d]]
        | none => [] := by
  unfold updatesOf
  rw [List.filterMap_append]
  cases hg : GoMap.get? m d <;> simp [List.filterMap_cons, hg]

/-- State of the tab after the updates of the loop, started on a tab `t` at least as long as
the tab `existing` the map was built from: the length is unchanged and every date of the
list that has an entry in the map finds its five cells at the row of that entry. -/
theorem foldl_updatesOf (sheetName : String) (stat : AppEventStatisticByDate)
    (existing : List Row) (t : List Row) (ht : existing.length ≤ t.length)
    (dates : List String) :
    ((updatesOf sheetName stat (dateRowMapOf existing) dates).foldl Tab.apply t).length
        = t.length ∧
    ∀ d ∈ dates, ∀ r, GoMap.get? (dateRowMapOf existing) d = some r →
      ((updatesOf sheetName stat (dateRowMapOf existing) dates).foldl Tab.apply t)[r - 1]?
        = some (rowData stat d) := by
  induction dates using List.reverseRecOn with
  | nil => simp [updatesOf]
  | append_singleton ds d ih =>
    obtain ⟨ihlen, ihrow⟩ := ih
    rw [updatesOf_append, List.foldl_append]
    cases hg : GoMap.get? (dateRowMapOf existing) d with
    | none =>
      simp only [List.foldl_nil]
      refine ⟨ihlen, ?_⟩
      intro d2 hd2 r hr
      rcases List.mem_append.mp hd2 with h | h
      · exact ihrow d2 h r hr
      · simp only [List.mem_singleton] at h
        subst h
        rw [hg] at hr
        simp at hr
    | some r0 =>
      have hr0 := dateRowMapOf_le_length existing d r0 hg
      simp only [List.foldl_cons, List.foldl_nil, Tab.apply, Tab.writeBlock_single]
      have hb1 : 1 ≤ r0 := hr0.1
      have hb2 : r0 ≤ ((updatesOf sheetName stat (dateRowMapOf existing) ds).foldl
          Tab.apply t).length := by
        rw [ihlen]
        omega
      refine ⟨by rw [Tab.setRow_length _ _ _ hb1 hb2, ihlen], ?_⟩
      intro d2 hd2 r hr
      rw [Tab.setRow_getElem? _ _ _ hb1 hb2]
      by_cases hrr : r - 1 = r0 - 1
      · have hr1 := (dateRowMapOf_le_length existing d2 r hr).1
        have hre : r = r0 := by omega
        subst hre
        have := dateRowMapOf_injective existing d2 d r hr hg
        subst this
        simp
      · simp only [hrr, if_false]
        rcases List.mem_append.mp hd2 with h | h
        · exact ihrow d2 h r hr
        · simp only [List.mem_singleton] at h
          subst h
          rw [hg] at hr
          have : r0 = r := Option.some.inj hr
          subst this
          exact absurd rfl hrr

theorem Tab.setRow_one_length (tab : List Row) (row : Row) :
    (Tab.setRow tab 1 row).length = max tab.length 1 := by
  unfold Tab.setRow
  cases tab with
  | nil => simp
  | cons r rest => simp

/-- One run of the reconciliation without remote failure: the tab after the header write
and the updates, followed by the queued rows. -/
theorem Tab.sync_eq (sheetName : String) (dates : List String)
    (stat : AppEventStatisticByDate) (tab : List Row) :
    Tab.sync sheetName dates stat tab =
      (updatesOf sheetName stat (dateRowMapOf tab) dates).foldl Tab.apply
        (if headerOk (Tab.readHeader tab) then tab else Tab.setRow tab 1 headerLiteral)
      ++ queueOf stat (dateRowMapOf tab) dates := by
  unfold Tab.sync
  rw [writeToGoogleSheets_noFault]
  simp only [List.foldl_append]
  have hH : (if headerOk (Tab.readHeader tab) then []
        else [Call.update sheetName 1 [headerLiteral]]).foldl Tab.apply tab =
      (if headerOk (Tab.readHeader tab) then tab else Tab.setRow tab 1 headerLiteral) := by
    cases headerOk (Tab.readHeader tab) <;> simp [Tab.apply, Tab.writeBlock_single]
  rw [hH]
  cases hq : queueOf stat (dateRowMapOf tab) dates with
  | nil => simp
  | cons q qs =>
    simp only [reduceCtorEq, if_false, List.foldl_cons, List.foldl_nil, Tab.apply]

theorem inColumnA_of_mem (tab : List Row) (row : Row) (d : String) (hmem : row ∈ tab)
    (hcol : colA row = some d) : inColumnA tab d = true := by
  unfold inColumnA
  rw [List.any_eq_true]
  exact ⟨row, hmem, by simpa using hcol⟩

/-- After one run every date of the list is held by column A of some row. -/
theorem Tab.sync_inColumnA (sheetName : String) (dates : List String)
    (stat : AppEventStatisticByDate) (tab : List Row) (d : String) (hd : d ∈ dates) :
    inColumnA (Tab.sync sheetName dates stat tab) d = true := by
  rw [Tab.sync_eq sheetName dates stat tab]
  have hlenH : tab.length ≤
      (if headerOk (Tab.readHeader tab) then tab else Tab.setRow tab 1 headerLiteral).length := by
    cases headerOk (Tab.readHeader tab)
    · simp only [Bool.false_eq_true, if_false, Tab.setRow_one_length]
      omega
    · simp
  obtain ⟨_, hrow⟩ := foldl_updatesOf sheetName stat tab _ hlenH dates
  cases hg : GoMap.get? (dateRowMapOf tab) d with
  | some r =>
    have h := hrow d hd r hg
    apply inColumnA_of_mem _ (rowData stat d) d _ (colA_rowData stat d)
    apply List.mem_append_left
    exact List.mem_iff_getElem?.mpr ⟨r - 1, h⟩
  | none =>
    apply inColumnA_of_mem _ (rowData stat d) d _ (colA_rowData stat d)
    apply List.mem_append_right
    unfold queueOf
    apply List.mem_map_of_mem
    rw [List.mem_filter]
    exact ⟨hd, by simp [hg]⟩

theorem updatesOf_isUpdate (sheetName : String) (stat : AppEventStatisticByDate)
    (m : GoMap Nat) (dates : List String) :
    ∀ c ∈ updatesOf sheetName stat m dates, c.isUpdate = true := by
  intro c hc
  unfold updatesOf at hc
  rw [List.mem_filterMap] at hc
  obtain ⟨d, _, hd⟩ := hc
  cases hg : GoMap.get? m d with
  | none => simp [hg] at hd
  | some r =>
    simp [hg] at hd
    subst hd
    rfl

/-- C4: reconciliation is idempotent with respect to appends.  For every table, every date
list and every initial tab state, after one run of `writeToGoogleSheets` without remote
failure a second run with the same table on the resulting tab finds every date mapped to a
row, queues no row, and sends only in-place updates: no request of the second run is an
append. -/
theorem c4_second_run_appends_nothing (sheetName : String) (dates : List String)
    (stat : AppEventStatisticByDate) (tab : List Row) :
    (∀ d ∈ dates, ∃ r,
      GoMap.get? (dateRowMapOf (Tab.sync sheetName dates stat tab)) d = some r) ∧
    queueOf stat (dateRowMapOf (Tab.sync sheetName dates stat tab)) dates = [] ∧
    (∀ c ∈ (writeToGoogleSheets noFault sheetName
          (Tab.readHeader (Tab.sync sheetName dates stat tab))
          (Tab.sync sheetName dates stat tab) dates stat).calls, c.isUpdate = true) ∧
    (writeToGoogleSheets noFault sheetName
          (Tab.readHeader (Tab.sync sheetName dates stat tab))
          (Tab.sync sheetName dates stat tab) dates stat).err = none ∧
    (writeToGoogleSheets noFault "App"
        (Tab.readHeader (Tab.sync "App" (sortedDates twoDayTable) twoDayTable headerlessTab))
        (Tab.sync "App" (sortedDates twoDayTable) twoDayTable headerlessTab)
        (sortedDates twoDayTable) twoDayTable).calls =
      [Call.update "App" 2
         [[Cell.str "2024-05-01", Cell.int 1, Cell.int 0, Cell.int 0, Cell.int 0]],
       Call.update "App" 4
         [[Cell.str "2024-05-02", Cell.int 2, Cell.int 0, Cell.int 0, Cell.int 1]]] := by
  have hfound : ∀ d ∈ dates,
      (GoMap.get? (dateRowMapOf (Tab.sync sheetName dates stat tab)) d).isNone = false := by
    intro d hd
    rw [dateRowMapOf_isNone, Tab.sync_inColumnA sheetName dates stat tab d hd]
    rfl
  have hq : queueOf stat (dateRowMapOf (Tab.sync sheetName dates stat tab)) dates = [] := by
    unfold queueOf
    rw [List.map_eq_nil_iff, List.filter_eq_nil_iff]
    intro d hd
    simp [hfound d hd]
  refine ⟨?_, hq, ?_, ?_, by decide⟩
  · intro d hd
    have h := hfound d hd
    cases hg : GoMap.get? (dateRowMapOf (Tab.sync sheetName dates stat tab)) d with
    | none => simp [hg] at h
    | some r => exact ⟨r, rfl⟩
  · rw [writeToGoogleSheets_noFault, hq]
    intro c hc
    simp only [if_true, List.append_nil, List.mem_append] at hc
    rcases hc with hc | hc
    · split at hc
      · simp at hc
      · simp only [List.mem_singleton] at hc
        subst hc
        rfl
    · exact updatesOf_isUpdate _ _ _ _ c hc
  · rw [writeToGoogleSheets_noFault]

/-! ### The calendar -/

set_option maxHeartbeats 4000000 in
/-- The day of the year computed by `civilFromDays` lies in the year: for every day `doe`
of a 400-year era, counted from 1 March, the day within its year is between 0 and 365. -/
theorem dayOfYear_bounds (doe : Int) (h0 : 0 ≤ doe) (h1 : doe < 146097) :
    0 ≤ doe - (365 * ((doe - doe / 1460 + doe / 36524 - doe / 146096) / 365)
          + (doe - doe / 1460 + doe / 36524 - doe / 146096) / 365 / 4
          - (doe - doe / 1460 + doe / 36524 - doe / 146096) / 365 / 100) ∧
    doe - (365 * ((doe - doe / 1460 + doe / 36524 - doe / 146096) / 365)
          + (doe - doe / 1460 + doe / 36524 - doe / 146096) / 365 / 4
          - (doe - doe / 1460 + doe / 36524 - doe / 146096) / 365 / 100) ≤ 365 := by
  generalize hb : doe / 1460 = b
  generalize hc : doe / 36524 = c
  have hb0 : 0 ≤ b := by omega
  have hb1 : b ≤ 100 := by omega
  have hc0 : 0 ≤ c := by omega
  have hc1 : c ≤ 4 := by omega
  interval_cases b <;> first
    | omega
    | (interval_cases c <;> omega)

theorem daysFromCivil_parts (era yoe mp doy : Int) (hy0 : 0 ≤ yoe) (hy1 : yoe ≤ 399)
    (hm0 : 0 ≤ mp) (hm1 : mp ≤ 11) :
    daysFromCivil
        (if (if mp < 10 then mp + 3 else mp - 9) ≤ 2 then yoe + era * 400 + 1
         else yoe + era * 400)
        (if mp < 10 then mp + 3 else mp - 9) (doy - (153 * mp + 2) / 5 + 1) =
      era * 146097 + (yoe * 365 + yoe / 4 - yoe / 100 + doy) - 719468 := by
  unfold daysFromCivil
  have e1 : (yoe + era * 400) / 400 = era := by omega
  have e3 : yoe + era * 400 - era * 400 = yoe := by omega
  by_cases h : mp < 10
  · have h2 : ¬ (mp + 3 ≤ 2) := by omega
    have h3 : mp + 3 > 2 := by omega
    have e2 : mp + 3 - 3 = mp := by omega
    simp only [h, if_true, h2, if_false, h3, e1, e2, e3]
    omega
  · have h2 : mp - 9 ≤ 2 := by omega
    have h3 : ¬ (mp - 9 > 2) := by omega
    have e2 : mp - 9 + 9 = mp := by omega
    have e4 : yoe + era * 400 + 1 - 1 = yoe + era * 400 := by omega
    simp only [h, if_false, h2, if_true, h3, e1, e2, e3, e4]
    omega

/-- The two calendar functions agree: the day number of the calendar date of day `z` is
`z`. -/
theorem daysFromCivil_civilFromDays (z : Int) :
    daysFromCivil (civilFromDays z).1 (civilFromDays z).2.1 (civilFromDays z).2.2 = z := by
  unfold civilFromDays
  simp only []
  generalize hz1 : z + 719468 = z1
  have hz : z = z1 - 719468 := by omega
  subst hz
  generalize hera : z1 / 146097 = era
  generalize hdoe : z1 - era * 146097 = doe
  have hdoe0 : 0 ≤ doe := by omega
  have hdoe1 : doe < 146097 := by omega
  have hb := dayOfYear_bounds doe hdoe0 hdoe1
  generalize hyoe : (doe - doe / 1460 + doe / 36524 - doe / 146096) / 365 = yoe at hb ⊢
  have hy0 : 0 ≤ yoe := by omega
  have hy1 : yoe ≤ 399 := by omega
  generalize hdoy : doe - (365 * yoe + yoe / 4 - yoe / 100) = doy at hb ⊢
  obtain ⟨hd0, hd1⟩ := hb
  generalize hmp : (5 * doy + 2) / 153 = mp
  have hm0 : 0 ≤ mp := by omega
  have hm1 : mp ≤ 11 := by omega
  rw [daysFromCivil_parts era yoe mp doy hy0 hy1 hm0 hm1]
  omega

/-- Line 84 in general: the lower bound is midnight at +7:00 of the calendar date that the
current instant has in the zone of the process clock. -/
theorem startOfDayTime_unix (now : Time) :
    (startOfDayTime now).unix = (now.unix + now.offset) / 86400 * 86400 - 7 * 3600 := by
  unfold startOfDayTime timeDate Time.UTC Time.In Time.Year Time.Month Time.Day Time.Date
    Time.wallSeconds
  simp only []
  rw [daysFromCivil_civilFromDays]
  simp only [gmt7]
  omega

/-- Line 84 when the process clock reports the time in the +7:00 zone: the lower bound is
midnight at +7:00 of the day the current instant falls on at +7:00. -/
theorem startOfDayTime_of_gmt7_clock (now : Time) (hzone : now.offset = gmt7) :
    (startOfDayTime now).unix = localMidnightGmt7 now.unix := by
  unfold startOfDayTime timeDate Time.UTC Time.In Time.Year Time.Month Time.Day Time.Date
    Time.wallSeconds localMidnightGmt7
  simp only []
  rw [daysFromCivil_civilFromDays, hzone]
  simp only [gmt7]
  omega


/-! ### The order of calendar dates -/

set_option maxHeartbeats 4000000 in
/-- The year of the era computed by `civilFromDays` is the last one that starts on or
before the day: unless it is the last year of the era, the next year starts later. -/
theorem yearOfEra_next (doe : Int) (h0 : 0 ≤ doe) (h1 : doe < 146097) :
    (doe - doe / 1460 + doe / 36524 - doe / 146096) / 365 = 399 ∨
    doe < 365 * ((doe - doe / 1460 + doe / 36524 - doe / 146096) / 365 + 1)
          + ((doe - doe / 1460 + doe / 36524 - doe / 146096) / 365 + 1) / 4
          - ((doe - doe / 1460 + doe / 36524 - doe / 146096) / 365 + 1) / 100 := by
  generalize hb : doe / 1460 = b
  have hb0 : 0 ≤ b := by omega
  have hb1 : b ≤ 100 := by omega
  interval_cases b <;> omega

theorem yearStart_mono (a b : Int) (h : a ≤ b) :
    365 * a + a / 4 - a / 100 ≤ 365 * b + b / 4 - b / 100 := by
  omega

/-- The parts from which `civilFromDays` builds the date of day `z`: the 400-year era, the
year of the era (counted from 1 March), the day of that year and the month of that year,
with the ranges they lie in. -/
theorem civilFromDays_parts (z : Int) :
    ∃ era yoe doy mp : Int,
      z + 719468 = era * 146097 + (365 * yoe + yoe / 4 - yoe / 100) + doy ∧
      0 ≤ yoe ∧ yoe ≤ 399 ∧ 0 ≤ doy ∧ doy ≤ 365 ∧
      365 * yoe + yoe / 4 - yoe / 100 + doy < 146097 ∧
      (yoe = 399 ∨ 365 * yoe + yoe / 4 - yoe / 100 + doy
          < 365 * (yoe + 1) + (yoe + 1) / 4 - (yoe + 1) / 100) ∧
      mp = (5 * doy + 2) / 153 ∧ 0 ≤ mp ∧ mp ≤ 11 ∧
      civilFromDays z =
        (if mp < 10 then yoe + era * 400 else yoe + era * 400 + 1,
         if mp < 10 then mp + 3 else mp - 9,
         doy - (153 * mp + 2) / 5 + 1) := by
  unfold civilFromDays
  simp only []
  generalize hz1 : z + 719468 = z1
  generalize hera : z1 / 146097 = era
  generalize hdoe : z1 - era * 146097 = doe
  have hdoe0 : 0 ≤ doe := by omega
  have hdoe1 : doe < 146097 := by omega
  have hb := dayOfYear_bounds doe hdoe0 hdoe1
  have hn := yearOfEra_next doe hdoe0 hdoe1
  generalize hyoe : (doe - doe / 1460 + doe / 36524 - doe / 146096) / 365 = yoe at hb hn ⊢
  have hy0 : 0 ≤ yoe := by omega
  have hy1 : yoe ≤ 399 := by omega
  generalize hdoy : doe - (365 * yoe + yoe / 4 - yoe / 100) = doy at hb ⊢
  obtain ⟨hd0, hd1⟩ := hb
  generalize hmp : (5 * doy + 2) / 153 = mp
  have hm0 : 0 ≤ mp := by omega
  have hm1 : mp ≤ 11 := by omega
  refine ⟨era, yoe, doy, mp, by omega, hy0, hy1, hd0, hd1, by omega, ?_, hmp.symm, hm0, hm1, ?_⟩
  · rcases hn with hn | hn
    · exact Or.inl hn
    · exact Or.inr (by omega)
  · by_cases h : mp < 10
    · have h2 : ¬ (mp + 3 ≤ 2) := by omega
      simp only [h, if_true, h2, if_false]
    · have h2 : mp - 9 ≤ 2 := by omega
      simp only [h, if_false, h2, if_true]

theorem civilFromDays_month_day (z : Int) :
    1 ≤ (civilFromDays z).2.1 ∧ (civilFromDays z).2.1 ≤ 12 ∧
    1 ≤ (civilFromDays z).2.2 ∧ (civilFromDays z).2.2 ≤ 31 := by
  obtain ⟨era, yoe, doy, mp, _, _, _, hd0, hd1, _, _, hmp, hm0, hm1, hc⟩ := civilFromDays_parts z
  rw [hc]
  simp only []
  refine ⟨?_, ?_, ?_, ?_⟩
  · split <;> omega
  · split <;> omega
  · omega
  · omega

/-- Later days have later calendar dates. -/
theorem dateOrdinal_civilFromDays_lt (z1 z2 : Int) (h : z1 < z2) :
    dateOrdinal (civilFromDays z1) < dateOrdinal (civilFromDays z2) := by
  obtain ⟨era1, yoe1, doy1, mp1, hz1, hy10, hy11, hd10, hd11, he1, hn1, hmp1, hm10, hm11, hc1⟩ :=
    civilFromDays_parts z1
  obtain ⟨era2, yoe2, doy2, mp2, hz2, hy20, hy21, hd20, hd21, he2, hn2, hmp2, hm20, hm21, hc2⟩ :=
    civilFromDays_parts z2
  have hk1 : dateOrdinal (civilFromDays z1)
      = ((yoe1 + era1 * 400) * 12 + mp1 + 3) * 32 + (doy1 - (153 * mp1 + 2) / 5 + 1) := by
    rw [hc1]
    unfold dateOrdinal
    simp only []
    split <;> ring
  have hk2 : dateOrdinal (civilFromDays z2)
      = ((yoe2 + era2 * 400) * 12 + mp2 + 3) * 32 + (doy2 - (153 * mp2 + 2) / 5 + 1) := by
    rw [hc2]
    unfold dateOrdinal
    simp only []
    split <;> ring
  rw [hk1, hk2]
  have hday1 : 1 ≤ doy1 - (153 * mp1 + 2) / 5 + 1 ∧ doy1 - (153 * mp1 + 2) / 5 + 1 ≤ 31 := by
    constructor <;> omega
  have hday2 : 1 ≤ doy2 - (153 * mp2 + 2) / 5 + 1 ∧ doy2 - (153 * mp2 + 2) / 5 + 1 ≤ 31 := by
    constructor <;> omega
  -- the era
  have hera : era1 ≤ era2 := by omega
  rcases lt_or_eq_of_le hera with hlt | heq
  · omega
  · subst heq
    -- the year of the era
    have hyoe : yoe1 ≤ yoe2 := by
      by_contra hcon
      have hgt : yoe2 + 1 ≤ yoe1 := by omega
      have hm := yearStart_mono (yoe2 + 1) yoe1 hgt
      rcases hn2 with h399 | hnext
      · omega
      · omega
    rcases lt_or_eq_of_le hyoe with hlt | heq
    · omega
    · subst heq
      have hdoy : doy1 < doy2 := by omega
      have hmp : mp1 ≤ mp2 := by omega
      rcases lt_or_eq_of_le hmp with hlt | heq
      · omega
      · subst heq
        omega

/-! ### Decimal digits -/

theorem digitChar_toNat (k : Nat) (h : k < 10) : (Nat.digitChar k).toNat = 48 + k := by
  interval_cases k <;> rfl

theorem toDigitsCore_append (f : Nat) :
    ∀ (n : Nat) (ds : List Char),
      Nat.toDigitsCore 10 f n ds = Nat.toDigitsCore 10 f n [] ++ ds := by
  induction f with
  | zero => intro n ds; simp [Nat.toDigitsCore]
  | succ f ih =>
    intro n ds
    simp only [Nat.toDigitsCore]
    split
    · simp
    · rw [ih (n / 10) (Nat.digitChar (n % 10) :: ds), ih (n / 10) [Nat.digitChar (n % 10)]]
      simp

theorem toDigitsCore_fuel (f : Nat) :
    ∀ (g n : Nat), n < f → n < g →
      Nat.toDigitsCore 10 f n [] = Nat.toDigitsCore 10 g n [] := by
  induction f with
  | zero => intro g n h; omega
  | succ f ih =>
    intro g n hf hg
    cases g with
    | zero => omega
    | succ g =>
      simp only [Nat.toDigitsCore]
      by_cases h0 : n / 10 = 0
      · simp [h0]
      · simp only [h0, if_false]
        rw [toDigitsCore_append f, toDigitsCore_append g]
        rw [ih g (n / 10) (by omega) (by omega)]

theorem toDigits_rec (n : Nat) :
    Nat.toDigits 10 n =
      if n < 10 then [Nat.digitChar n]
      else Nat.toDigits 10 (n / 10) ++ [Nat.digitChar (n % 10)] := by
  have e : ∀ k, Nat.toDigits 10 k = Nat.toDigitsCore 10 (k + 1) k [] := fun _ => rfl
  rw [e n, e (n / 10)]
  conv_lhs => unfold Nat.toDigitsCore
  by_cases hn : n < 10
  · have h0 : n / 10 = 0 := by omega
    have h1 : n % 10 = n := by omega
    simp [hn, h0, h1]
  · have h0 : ¬ n / 10 = 0 := by omega
    simp only [h0, hn, if_false]
    rw [toDigitsCore_append]
    rw [toDigitsCore_fuel n (n / 10 + 1) (n / 10) (by omega) (by omega)]

theorem decodeNat_append_singleton (l : List Char) (c : Char) :
    decodeNat (l ++ [c]) = 10 * decodeNat l + (c.toNat - 48) := by
  simp [decodeNat, List.foldl_append]

theorem decodeNat_toDigits (n : Nat) : decodeNat (Nat.toDigits 10 n) = n := by
  induction n using Nat.strong_induction_on with
  | _ n ih =>
    rw [toDigits_rec]
    by_cases hn : n < 10
    · simp only [hn, if_true]
      simp [decodeNat, digitChar_toNat n hn]
    · simp only [hn, if_false]
      rw [decodeNat_append_singleton, ih (n / 10) (by omega),
        digitChar_toNat (n % 10) (by omega)]
      omega

theorem decodeNat_replicate_zero (k : Nat) (l : List Char) :
    decodeNat (List.replicate k '0' ++ l) = decodeNat l := by
  induction k with
  | zero => simp
  | succ k ih =>
    have h : decodeNat (List.replicate (k + 1) '0' ++ l)
        = decodeNat (List.replicate k '0' ++ l) := by
      unfold decodeNat
      simp only [List.replicate_succ, List.cons_append, List.foldl_cons]
      rfl
    rw [h, ih]

theorem toDigits_head_ne_minus (n : Nat) :
    ∃ c rest, Nat.toDigits 10 n = c :: rest ∧ c ≠ '-' := by
  induction n using Nat.strong_induction_on with
  | _ n ih =>
    rw [toDigits_rec]
    by_cases hn : n < 10
    · simp only [hn, if_true]
      refine ⟨Nat.digitChar n, [], rfl, ?_⟩
      intro h
      have := digitChar_toNat n hn
      rw [h] at this
      have h45 : ('-' : Char).toNat = 45 := rfl
      omega
    · simp only [hn, if_false]
      obtain ⟨c, rest, h1, h2⟩ := ih (n / 10) (by omega)
      exact ⟨c, rest ++ [Nat.digitChar (n % 10)], by rw [h1]; rfl, h2⟩

/-- The function `appendInt` can be read back. -/
theorem decodeInt_appendInt (x : Int) (w : Nat) : decodeInt (appendInt x w) = x := by
  unfold appendInt
  simp only []
  by_cases hx : x < 0
  · simp only [hx, if_true, List.cons_append, List.nil_append, List.append_assoc, decodeInt]
    rw [decodeNat_replicate_zero, decodeNat_toDigits]
    omega
  · simp only [hx, if_false, List.nil_append]
    obtain ⟨c, rest, h1, h2⟩ := toDigits_head_ne_minus x.natAbs
    have hval : decodeNat (List.replicate (w - (Nat.toDigits 10 x.natAbs).length) '0'
        ++ Nat.toDigits 10 x.natAbs) = x.natAbs := by
      rw [decodeNat_replicate_zero, decodeNat_toDigits]
    cases hk : w - (Nat.toDigits 10 x.natAbs).length with
    | zero =>
      rw [hk] at hval
      simp only [List.replicate_zero, List.nil_append] at hval ⊢
      rw [h1] at hval ⊢
      simp only [decodeInt, h2, if_false]
      rw [hval]
      omega
    | succ k =>
      rw [hk] at hval
      simp only [List.replicate_succ, List.cons_append] at hval ⊢
      have h0 : ('0' : Char) ≠ '-' := by decide
      simp only [decodeInt, h0, if_false]
      rw [hval]
      omega

theorem appendInt_injective (x y : Int) (w : Nat) (h : appendInt x w = appendInt y w) :
    x = y := by
  rw [← decodeInt_appendInt x w, ← decodeInt_appendInt y w, h]

theorem appendInt_two (m : Int) (h0 : 0 ≤ m) (h1 : m ≤ 99) :
    appendInt m 2 = [Nat.digitChar (m.natAbs / 10), Nat.digitChar (m.natAbs % 10)] := by
  unfold appendInt
  have hx : ¬ m < 0 := by omega
  simp only [hx, if_false, List.nil_append]
  rw [toDigits_rec]
  by_cases hn : m.natAbs < 10
  · have e0 : m.natAbs / 10 = 0 := by omega
    have e1 : m.natAbs % 10 = m.natAbs := by omega
    simp [hn, e0, e1]
    rfl
  · simp only [hn, if_false]
    rw [toDigits_rec]
    have h2 : m.natAbs / 10 < 10 := by omega
    simp [h2]

theorem appendInt_four (y : Int) (h0 : 0 ≤ y) (h1 : y ≤ 9999) :
    appendInt y 4 =
      [Nat.digitChar (y.natAbs / 1000), Nat.digitChar (y.natAbs / 100 % 10),
       Nat.digitChar (y.natAbs / 10 % 10), Nat.digitChar (y.natAbs % 10)] := by
  unfold appendInt
  have hx : ¬ y < 0 := by omega
  simp only [hx, if_false, List.nil_append]
  have hn : y.natAbs ≤ 9999 := by omega
  generalize y.natAbs = n at hn ⊢
  rw [toDigits_rec]
  by_cases c1 : n < 10
  · have e0 : n / 1000 = 0 := by omega
    have e1 : n / 100 % 10 = 0 := by omega
    have e2 : n / 10 % 10 = 0 := by omega
    have e3 : n % 10 = n := by omega
    simp [c1, e0, e1, e2, e3]
    rfl
  · simp only [c1, if_false]
    rw [toDigits_rec]
    by_cases c2 : n / 10 < 10
    · have e0 : n / 1000 = 0 := by omega
      have e1 : n / 100 % 10 = 0 := by omega
      have e2 : n / 10 % 10 = n / 10 := by omega
      simp [c2, e0, e1, e2]
      rfl
    · simp only [c2, if_false]
      rw [toDigits_rec]
      by_cases c3 : n / 10 / 10 < 10
      · have e0 : n / 1000 = 0 := by omega
        have e1 : n / 100 % 10 = n / 10 / 10 := by omega
        have e2 : n / 10 / 10 % 10 = n / 10 / 10 := by omega
        simp [c3, e0, e1]
        rfl
      · simp only [c3, if_false]
        rw [toDigits_rec]
        have c4 : n / 10 / 10 / 10 < 10 := by omega
        have e0 : n / 1000 = n / 10 / 10 / 10 := by omega
        have e1 : n / 100 % 10 = n / 10 / 10 % 10 := by omega
        simp [c4, e0, e1]

/-! ### Claims about the aggregator -/

/-- C1: for every list of event edges (a Go slice, hence of length below `2^63`, whose
occurrence instants lie where Go's date arithmetic does not wrap), the table returned by
`getAppEventStatistic` holds in cell (date `d`, kind `k`) exactly the number of input
records whose +7:00 local date is `d` and whose type is `k`, an absent cell reading as 0;
the cells of the table belong to pairwise distinct (date, kind) pairs; the sum of all
counts is the length of the input; and every input record is counted in exactly one cell:
taking one record out of the input lowers the cell of its own local date and kind by one
and leaves every other cell as it is. -/
theorem c1_statistic_counts_records (edges : List AppEventEdges)
    (hlen : (edges.length : Int) < 2 ^ 63)
    (hrange : ∀ e ∈ edges, inDateRange e.node.occurredAt.unix) :
    (∀ d k, AppEventStatisticByDate.cell (getAppEventStatistic edges) d k
        = (countRecords edges d k : Int)) ∧
    AppEventStatisticByDate.WellFormed (getAppEventStatistic edges) ∧
    AppEventStatisticByDate.total (getAppEventStatistic edges) = (edges.length : Int) ∧
    (∀ pre e post, edges = pre ++ e :: post → ∀ d k,
      AppEventStatisticByDate.cell (getAppEventStatistic edges) d k =
        AppEventStatisticByDate.cell (getAppEventStatistic (pre ++ post)) d k +
          if localDateGmt7 e.node.occurredAt.unix = d ∧ e.node.type = k then 1 else 0) := by
  refine ⟨?_, wellFormed_getAppEventStatistic edges,
    total_getAppEventStatistic edges hlen, ?_⟩
  · intro d k
    rw [cell_getAppEventStatistic edges hlen, countEvents_eq_countRecords edges hrange]
  · intro pre e post hsplit d k
    subst hsplit
    rw [← dateKey_eq_localDate e (hrange e (by simp))]
    exact cell_insert_record pre post e hlen d k

/-- The statement of C1 at the three events of the end-to-end scenario. -/
theorem c1_statistic_counts_records_witness :
    ((scenarioEdges.length : Int) < 2 ^ 63) ∧
    (∀ e ∈ scenarioEdges, inDateRange e.node.occurredAt.unix) ∧
    (∀ d k, AppEventStatisticByDate.cell (getAppEventStatistic scenarioEdges) d k
        = (countRecords scenarioEdges d k : Int)) ∧
    AppEventStatisticByDate.WellFormed (getAppEventStatistic scenarioEdges) ∧
    AppEventStatisticByDate.total (getAppEventStatistic scenarioEdges)
      = (scenarioEdges.length : Int) ∧
    (∀ pre e post, scenarioEdges = pre ++ e :: post → ∀ d k,
      AppEventStatisticByDate.cell (getAppEventStatistic scenarioEdges) d k =
        AppEventStatisticByDate.cell (getAppEventStatistic (pre ++ post)) d k +
          if localDateGmt7 e.node.occurredAt.unix = d ∧ e.node.type = k then 1 else 0) :=
  ⟨by decide, by decide,
   c1_statistic_counts_records scenarioEdges (by decide) (by decide)⟩

/-- C2: for every event whose occurrence instant lies where Go's 64-bit date arithmetic
does not wrap (so for every instant an RFC 3339 timestamp can express), the date key under
which `getAppEventStatistic` counts it is the `YYYY-MM-DD` calendar date of the instant
shifted by exactly seven hours from UTC: inserting the event anywhere into any input
raises the cell of that date (and of the kind of the event) by one and changes no other
cell.  The key is a function of the instant alone: two events at the same instant get the
same key whatever the zone their timestamps were expressed in, and the other events play
no part.  An event at 2024-05-01T17:30:00Z (second 1714584600 of the Unix epoch) is
counted under 2024-05-02, also when the same instant is written
2024-05-02T00:30:00+07:00. -/
theorem c2_date_key_is_gmt7_date (pre post : List AppEventEdges) (e : AppEventEdges)
    (hlen : ((pre ++ e :: post).length : Int) < 2 ^ 63)
    (hrange : inDateRange e.node.occurredAt.unix) :
    dateKey e = localDateGmt7 e.node.occurredAt.unix ∧
    (∀ d k, AppEventStatisticByDate.cell (getAppEventStatistic (pre ++ e :: post)) d k =
      AppEventStatisticByDate.cell (getAppEventStatistic (pre ++ post)) d k +
        if localDateGmt7 e.node.occurredAt.unix = d ∧ e.node.type = k then 1 else 0) ∧
    (∀ e2 : AppEventEdges, e2.node.occurredAt.unix = e.node.occurredAt.unix →
      dateKey e2 = dateKey e) ∧
    (∀ (kind cursor : String) (nsec : Nat),
      dateKey { node := { type := kind, occurredAt := timeDate 2024 5 1 17 30 0 nsec 0 },
                cursor := cursor } = "2024-05-02" ∧
      dateKey { node := { type := kind, occurredAt := timeDate 2024 5 2 0 30 0 nsec gmt7 },
                cursor := cursor } = "2024-05-02") ∧
    (timeDate 2024 5 1 17 30 0 0 0).unix = 1714584600 ∧
    localDateGmt7 1714584600 = "2024-05-02" := by
  refine ⟨dateKey_eq_localDate e hrange, ?_, ?_, ?_, by decide, by decide⟩
  · intro d k
    rw [← dateKey_eq_localDate e hrange]
    exact cell_insert_record pre post e hlen d k
  · intro e2 h
    exact dateKey_congr e2 e h
  · intro kind cursor nsec
    constructor
    · exact (dateKey_congr _
        { node := { type := "", occurredAt := timeDate 2024 5 1 17 30 0 0 0 },
          cursor := "" } rfl).trans (by decide)
    · exact (dateKey_congr _
        { node := { type := "", occurredAt := timeDate 2024 5 2 0 30 0 0 gmt7 },
          cursor := "" } rfl).trans (by decide)

/-- The statement of C2 for the second event of the end-to-end scenario. -/
theorem c2_date_key_is_gmt7_date_witness :
    ((([] : List AppEventEdges) ++ scenarioEdges).length : Int) < 2 ^ 63 ∧
    inDateRange (timeDate 2024 5 1 18 0 0 0 0).unix ∧
    dateKey { node := { type := "RELATIONSHIP_UNINSTALLED",
                        occurredAt := timeDate 2024 5 1 18 0 0 0 0 }, cursor := "c2" }
      = localDateGmt7 (timeDate 2024 5 1 18 0 0 0 0).unix ∧
    (∀ d k, AppEventStatisticByDate.cell (getAppEventStatistic
        ([{ node := { type := "RELATIONSHIP_INSTALLED",
                      occurredAt := timeDate 2024 5 1 17 0 0 0 0 }, cursor := "c1" }] ++
         { node := { type := "RELATIONSHIP_UNINSTALLED",
                     occurredAt := timeDate 2024 5 1 18 0 0 0 0 }, cursor := "c2" } ::
         [{ node := { type := "RELATIONSHIP_INSTALLED",
                      occurredAt := timeDate 2024 5 2 1 0 0 0 0 }, cursor := "c3" }])) d k =
      AppEventStatisticByDate.cell (getAppEventStatistic
        ([{ node := { type := "RELATIONSHIP_INSTALLED",
                      occurredAt := timeDate 2024 5 1 17 0 0 0 0 }, cursor := "c1" }] ++
         [{ node := { type := "RELATIONSHIP_INSTALLED",
                      occurredAt := timeDate 2024 5 2 1 0 0 0 0 }, cursor := "c3" }])) d k +
        if localDateGmt7 (timeDate 2024 5 1 18 0 0 0 0).unix = d ∧
            "RELATIONSHIP_UNINSTALLED" = k then 1 else 0) :=
  ⟨by decide, by decide,
   (c2_date_key_is_gmt7_date
      [{ node := { type := "RELATIONSHIP_INSTALLED",
                   occurredAt := timeDate 2024 5 1 17 0 0 0 0 }, cursor := "c1" }]
      [{ node := { type := "RELATIONSHIP_INSTALLED",
                   occurredAt := timeDate 2024 5 2 1 0 0 0 0 }, cursor := "c3" }]
      { node := { type := "RELATIONSHIP_UNINSTALLED",
                  occurredAt := timeDate 2024 5 1 18 0 0 0 0 }, cursor := "c2" }
      (by decide) (by decide)).1,
   (c2_date_key_is_gmt7_date
      [{ node := { type := "RELATIONSHIP_INSTALLED",
                   occurredAt := timeDate 2024 5 1 17 0 0 0 0 }, cursor := "c1" }]
      [{ node := { type := "RELATIONSHIP_INSTALLED",
                   occurredAt := timeDate 2024 5 2 1 0 0 0 0 }, cursor := "c3" }]
      { node := { type := "RELATIONSHIP_UNINSTALLED",
                  occurredAt := timeDate 2024 5 1 18 0 0 0 0 }, cursor := "c2" }
      (by decide) (by decide)).2.1⟩

/-! ### The text of a calendar date -/

theorem digitChar_injective (a b : Nat) (ha : a < 10) (hb : b < 10)
    (h : Nat.digitChar a = Nat.digitChar b) : a = b := by
  have h1 := digitChar_toNat a ha
  have h2 := digitChar_toNat b hb
  rw [h] at h1
  omega

/-- Different calendar dates have different `YYYY-MM-DD` texts, whatever the year. -/
theorem ymd_injective (t1 t2 : Int × Int × Int)
    (hm1 : 1 ≤ t1.2.1 ∧ t1.2.1 ≤ 12) (hd1 : 1 ≤ t1.2.2 ∧ t1.2.2 ≤ 31)
    (hm2 : 1 ≤ t2.2.1 ∧ t2.2.1 ≤ 12) (hd2 : 1 ≤ t2.2.2 ∧ t2.2.2 ≤ 31)
    (h : ymd t1 = ymd t2) : t1 = t2 := by
  obtain ⟨y1, m1, d1⟩ := t1
  obtain ⟨y2, m2, d2⟩ := t2
  simp only at hm1 hd1 hm2 hd2
  unfold ymd at h
  replace h := congrArg String.data h
  simp only at h
  rw [appendInt_two m1 (by omega) (by omega), appendInt_two d1 (by omega) (by omega),
    appendInt_two m2 (by omega) (by omega), appendInt_two d2 (by omega) (by omega)] at h
  simp only [List.append_assoc, List.cons_append, List.nil_append] at h
  have hsplit := List.append_inj' h rfl
  obtain ⟨hy, hrest⟩ := hsplit
  have hyy : y1 = y2 := appendInt_injective y1 y2 4 hy
  simp only [List.cons.injEq, and_true, true_and] at hrest
  obtain ⟨a1, a2, a3, a4⟩ := hrest
  have b1 := digitChar_injective _ _ (by omega) (by omega) a1
  have b2 := digitChar_injective _ _ (by omega) (by omega) a2
  have b3 := digitChar_injective _ _ (by omega) (by omega) a3
  have b4 := digitChar_injective _ _ (by omega) (by omega) a4
  have hmm : m1 = m2 := by omega
  have hdd : d1 = d2 := by omega
  rw [hyy, hmm, hdd]

theorem ltChars_digit (a b : Nat) (ha : a < 10) (hb : b < 10) (cs ds : List Char) :
    ltChars (Nat.digitChar a :: cs) (Nat.digitChar b :: ds) =
      if a < b then true else if a = b then ltChars cs ds else false := by
  simp only [ltChars, digitChar_toNat a ha, digitChar_toNat b hb]
  by_cases h1 : a < b
  · have : 48 + a < 48 + b := by omega
    simp [h1, this]
  · have h2 : ¬ (48 + a < 48 + b) := by omega
    simp only [h1, h2, if_false]
    by_cases h3 : a = b
    · subst h3
      simp
    · have h4 : ¬ Nat.digitChar a = Nat.digitChar b :=
        fun e => h3 (digitChar_injective a b ha hb e)
      simp [h3, h4]

theorem ltChars_same (c : Char) (cs ds : List Char) :
    ltChars (c :: cs) (c :: ds) = ltChars cs ds := by
  simp [ltChars]

theorem ltChars_append (a : List Char) :
    ∀ (b c d : List Char), a.length = b.length →
      (ltChars (a ++ c) (b ++ d) = true ↔
        ltChars a b = true ∨ (a = b ∧ ltChars c d = true)) := by
  induction a with
  | nil =>
    intro b c d h
    cases b with
    | nil => cases d <;> simp [ltChars]
    | cons y ys => simp at h
  | cons x xs ih =>
    intro b c d h
    cases b with
    | nil => simp at h
    | cons y ys =>
      simp only [List.length_cons, add_left_inj] at h
      simp only [List.cons_append, ltChars]
      by_cases h1 : x.toNat < y.toNat
      · simp [h1]
      · simp only [h1, if_false]
        by_cases h2 : x = y
        · subst h2
          simp only [if_true, List.cons.injEq, true_and]
          exact ih ys c d h
        · simp [h2]

theorem ltChars_year (y1 y2 : Int) (h1 : 0 ≤ y1 ∧ y1 ≤ 9999) (h2 : 0 ≤ y2 ∧ y2 ≤ 9999) :
    ltChars (appendInt y1 4) (appendInt y2 4) = true ↔ y1 < y2 := by
  rw [appendInt_four y1 h1.1 h1.2, appendInt_four y2 h2.1 h2.2]
  rw [ltChars_digit _ _ (by omega) (by omega), ltChars_digit _ _ (by omega) (by omega),
    ltChars_digit _ _ (by omega) (by omega), ltChars_digit _ _ (by omega) (by omega)]
  simp only [ltChars]
  have k1 : y1 = ((1000 * (y1.natAbs / 1000) + 100 * (y1.natAbs / 100 % 10)
      + 10 * (y1.natAbs / 10 % 10) + y1.natAbs % 10 : Nat) : Int) := by omega
  have k2 : y2 = ((1000 * (y2.natAbs / 1000) + 100 * (y2.natAbs / 100 % 10)
      + 10 * (y2.natAbs / 10 % 10) + y2.natAbs % 10 : Nat) : Int) := by omega
  have p2 : y1.natAbs / 100 % 10 < 10 := by omega
  have p1 : y1.natAbs / 10 % 10 < 10 := by omega
  have p0 : y1.natAbs % 10 < 10 := by omega
  have q2 : y2.natAbs / 100 % 10 < 10 := by omega
  have q1 : y2.natAbs / 10 % 10 < 10 := by omega
  have q0 : y2.natAbs % 10 < 10 := by omega
  generalize y1.natAbs / 1000 = a3 at *
  generalize y1.natAbs / 100 % 10 = a2 at *
  generalize y1.natAbs / 10 % 10 = a1 at *
  generalize y1.natAbs % 10 = a0 at *
  generalize y2.natAbs / 1000 = b3 at *
  generalize y2.natAbs / 100 % 10 = b2 at *
  generalize y2.natAbs / 10 % 10 = b1 at *
  generalize y2.natAbs % 10 = b0 at *
  subst k1 k2
  by_cases c3 : a3 < b3
  · simp only [c3, if_true, true_iff]
    omega
  · simp only [c3, if_false]
    by_cases e3 : a3 = b3
    · simp only [e3, if_true]
      by_cases c2 : a2 < b2
      · simp only [c2, if_true, true_iff]
        omega
      · simp only [c2, if_false]
        by_cases e2 : a2 = b2
        · simp only [e2, if_true]
          by_cases c1 : a1 < b1
          · simp only [c1, if_true, true_iff]
            omega
          · simp only [c1, if_false]
            by_cases e1 : a1 = b1
            · simp only [e1, if_true]
              by_cases c0 : a0 < b0
              · simp only [c0, if_true, true_iff]
                omega
              · simp only [c0, if_false, ite_self, Bool.false_eq_true, false_iff]
                omega
            · simp only [e1, if_false, Bool.false_eq_true, false_iff]
              omega
        · simp only [e2, if_false, Bool.false_eq_true, false_iff]
          omega
    · simp only [e3, if_false, Bool.false_eq_true, false_iff]
      omega

theorem ltChars_two (m1 m2 : Int) (h1 : 0 ≤ m1 ∧ m1 ≤ 99) (h2 : 0 ≤ m2 ∧ m2 ≤ 99)
    (cs ds : List Char) :
    ltChars (appendInt m1 2 ++ cs) (appendInt m2 2 ++ ds) = true ↔
      m1 < m2 ∨ (m1 = m2 ∧ ltChars cs ds = true) := by
  rw [ltChars_append _ _ _ _ (by
    rw [appendInt_two m1 h1.1 h1.2, appendInt_two m2 h2.1 h2.2]
    rfl)]
  have hlt : ltChars (appendInt m1 2) (appendInt m2 2) = true ↔ m1 < m2 := by
    rw [appendInt_two m1 h1.1 h1.2, appendInt_two m2 h2.1 h2.2]
    rw [ltChars_digit _ _ (by omega) (by omega), ltChars_digit _ _ (by omega) (by omega)]
    simp only [ltChars]
    by_cases a1 : m1.natAbs / 10 < m2.natAbs / 10
    · simp only [a1, if_true, true_iff]
      omega
    · simp only [a1, if_false]
      by_cases b1 : m1.natAbs / 10 = m2.natAbs / 10
      · simp only [b1, if_true]
        by_cases a0 : m1.natAbs % 10 < m2.natAbs % 10
        · simp only [a0, if_true, true_iff]
          omega
        · simp only [a0, if_false, ite_self, Bool.false_eq_true, false_iff]
          omega
      · simp only [b1, if_false, Bool.false_eq_true, false_iff]
        omega
  have heq : appendInt m1 2 = appendInt m2 2 ↔ m1 = m2 :=
    ⟨appendInt_injective m1 m2 2, fun e => by rw [e]⟩
  rw [hlt, heq]

/-- For years of four digits the order of the `YYYY-MM-DD` texts is the order of the
calendar dates. -/
theorem stringLess_ymd (t1 t2 : Int × Int × Int)
    (hy1 : 0 ≤ t1.1 ∧ t1.1 ≤ 9999) (hm1 : 1 ≤ t1.2.1 ∧ t1.2.1 ≤ 12)
    (hd1 : 1 ≤ t1.2.2 ∧ t1.2.2 ≤ 31)
    (hy2 : 0 ≤ t2.1 ∧ t2.1 ≤ 9999) (hm2 : 1 ≤ t2.2.1 ∧ t2.2.1 ≤ 12)
    (hd2 : 1 ≤ t2.2.2 ∧ t2.2.2 ≤ 31) :
    stringLess (ymd t1) (ymd t2) = true ↔ dateOrdinal t1 < dateOrdinal t2 := by
  obtain ⟨y1, m1, d1⟩ := t1
  obtain ⟨y2, m2, d2⟩ := t2
  simp only at hy1 hm1 hd1 hy2 hm2 hd2
  unfold stringLess ymd dateOrdinal
  simp only [List.append_assoc]
  have hlen : (appendInt y1 4).length = (appendInt y2 4).length := by
    rw [appendInt_four y1 hy1.1 hy1.2, appendInt_four y2 hy2.1 hy2.2]
    rfl
  rw [ltChars_append _ _ _ _ hlen, ltChars_year y1 y2 hy1 hy2]
  have heq : appendInt y1 4 = appendInt y2 4 ↔ y1 = y2 :=
    ⟨appendInt_injective y1 y2 4, fun e => by rw [e]⟩
  rw [heq]
  simp only [List.singleton_append]
  rw [ltChars_same, ltChars_two m1 m2 ⟨by omega, by omega⟩ ⟨by omega, by omega⟩, ltChars_same]
  have hday := ltChars_two d1 d2 ⟨by omega, by omega⟩ ⟨by omega, by omega⟩ [] []
  simp only [List.append_nil, ltChars, Bool.false_eq_true, and_false, or_false] at hday
  rw [hday]
  constructor
  · rintro (h | ⟨h, h2 | ⟨h2, h3⟩⟩) <;> omega
  · intro h
    by_cases c1 : y1 < y2
    · exact Or.inl c1
    · have e1 : y1 = y2 := by omega
      refine Or.inr ⟨e1, ?_⟩
      by_cases c2 : m1 < m2
      · exact Or.inl c2
      · have e2 : m1 = m2 := by omega
        exact Or.inr ⟨e2, by omega⟩

theorem civilFromDays_injective (a b : Int) (h : civilFromDays a = civilFromDays b) :
    a = b := by
  rw [← daysFromCivil_civilFromDays a, ← daysFromCivil_civilFromDays b, h]

/-- Two instants have the same `YYYY-MM-DD` text of the +7:00 local date exactly when they
fall on the same +7:00 local day. -/
theorem localDateGmt7_eq_iff (u1 u2 : Int) :
    localDateGmt7 u1 = localDateGmt7 u2 ↔ localDay u1 = localDay u2 := by
  constructor
  · intro h
    unfold localDateGmt7 at h
    have b1 := civilFromDays_month_day (localDay u1)
    have b2 := civilFromDays_month_day (localDay u2)
    exact civilFromDays_injective _ _
      (ymd_injective _ _ ⟨b1.1, b1.2.1⟩ ⟨b1.2.2.1, b1.2.2.2⟩ ⟨b2.1, b2.2.1⟩
        ⟨b2.2.2.1, b2.2.2.2⟩ h)
  · intro h
    unfold localDateGmt7
    rw [h]

/-- Among days whose year has four digits, a later day has a later `YYYY-MM-DD` text in the
order of strings. -/
theorem ymd_civilFromDays_lt (a b : Int) (hab : a < b)
    (ha : 0 ≤ (civilFromDays a).1 ∧ (civilFromDays a).1 ≤ 9999)
    (hb : 0 ≤ (civilFromDays b).1 ∧ (civilFromDays b).1 ≤ 9999) :
    ymd (civilFromDays a) < ymd (civilFromDays b) := by
  have b1 := civilFromDays_month_day a
  have b2 := civilFromDays_month_day b
  rw [← stringLess_iff]
  exact (stringLess_ymd _ _ ha ⟨b1.1, b1.2.1⟩ ⟨b1.2.2.1, b1.2.2.2⟩ hb ⟨b2.1, b2.2.1⟩
    ⟨b2.2.2.1, b2.2.2.2⟩).mpr (dateOrdinal_civilFromDays_lt a b hab)

theorem sortedLocalDays_sorted (edges : List AppEventEdges) :
    (sortedLocalDays edges).Sorted (fun a b => a < b) := by
  unfold sortedLocalDays
  apply List.Sorted.lt_of_le
  · exact List.sorted_insertionSort (fun a b : Int => a ≤ b) _
  · exact (List.perm_insertionSort (fun a b : Int => a ≤ b) _).nodup_iff.mpr
      (List.nodup_dedup _)

theorem mem_sortedLocalDays (edges : List AppEventEdges) (n : Int) :
    n ∈ sortedLocalDays edges ↔ ∃ e ∈ edges, localDay e.node.occurredAt.unix = n := by
  unfold sortedLocalDays
  rw [(List.perm_insertionSort (fun a b : Int => a ≤ b) _).mem_iff, List.mem_dedup,
    List.mem_map]

/-- The sorted date keys are, up to order, the texts of the distinct +7:00 local days of
the input: one key per local day. -/
theorem sortedDates_perm_localDays (edges : List AppEventEdges)
    (hrange : ∀ e ∈ edges, inDateRange e.node.occurredAt.unix) :
    (sortedDates (getAppEventStatistic edges)).Perm
      ((sortedLocalDays edges).map (fun n => ymd (civilFromDays n))) := by
  have hs1 := sortedDates_strict edges
  have hinj : Function.Injective (fun n : Int => ymd (civilFromDays n)) := by
    intro a b h
    have b1 := civilFromDays_month_day a
    have b2 := civilFromDays_month_day b
    exact civilFromDays_injective _ _
      (ymd_injective _ _ ⟨b1.1, b1.2.1⟩ ⟨b1.2.2.1, b1.2.2.2⟩ ⟨b2.1, b2.2.1⟩
        ⟨b2.2.2.1, b2.2.2.2⟩ h)
  have hn2 : ((sortedLocalDays edges).map (fun n => ymd (civilFromDays n))).Nodup :=
    List.Nodup.map hinj (sortedLocalDays_sorted edges).nodup
  rw [List.perm_ext_iff_of_nodup hs1.nodup hn2]
  intro d
  rw [mem_sortedDates_local edges hrange, List.mem_map]
  constructor
  · rintro ⟨e, he, hd⟩
    exact ⟨localDay e.node.occurredAt.unix, (mem_sortedLocalDays edges _).mpr ⟨e, he, rfl⟩, hd⟩
  · rintro ⟨n, hn, hd⟩
    obtain ⟨e, he, h1⟩ := (mem_sortedLocalDays edges n).mp hn
    refine ⟨e, he, ?_⟩
    unfold localDateGmt7
    rw [h1]
    exact hd

/-- When every +7:00 local date of the input has a year of four digits, the sorted date
keys are the texts of the distinct local days in chronological order. -/
theorem sortedDates_chronological (edges : List AppEventEdges)
    (hrange : ∀ e ∈ edges, inDateRange e.node.occurredAt.unix)
    (hyear : ∀ e ∈ edges,
      0 ≤ (civilFromDays (localDay e.node.occurredAt.unix)).1 ∧
      (civilFromDays (localDay e.node.occurredAt.unix)).1 ≤ 9999) :
    sortedDates (getAppEventStatistic edges) =
      (sortedLocalDays edges).map (fun n => ymd (civilFromDays n)) := by
  have hs1 := sortedDates_strict edges
  have hs2 : ((sortedLocalDays edges).map (fun n => ymd (civilFromDays n))).Sorted
      (fun a b => a < b) := by
    unfold List.Sorted
    rw [List.pairwise_map]
    refine List.Pairwise.imp_of_mem ?_ (sortedLocalDays_sorted edges)
    intro a b ha hb hab
    obtain ⟨e1, he1, h1⟩ := (mem_sortedLocalDays edges a).mp ha
    obtain ⟨e2, he2, h2⟩ := (mem_sortedLocalDays edges b).mp hb
    have y1 := hyear e1 he1
    have y2 := hyear e2 he2
    rw [h1] at y1
    rw [h2] at y2
    exact ymd_civilFromDays_lt a b hab y1 y2
  exact List.eq_of_perm_of_sorted (sortedDates_perm_localDays edges hrange) hs1 hs2

/-! ### Claim about the rows -/

/-- C3, as stated, fails in the order of the rows: for two installs at 9999-12-31T10:00:00Z
and 9999-12-31T23:59:59Z the +7:00 local dates are 9999-12-31 and 10000-01-01, and the row
of the later date comes first, because `sort.Strings` puts "10000-01-01" before
"9999-12-31". -/
theorem c3_counterexample :
    builtRows (getAppEventStatistic yearTenThousandEdges)
        (sortedDates (getAppEventStatistic yearTenThousandEdges)) =
      [[Cell.str "10000-01-01", Cell.int 1, Cell.int 0, Cell.int 0, Cell.int 0],
       [Cell.str "9999-12-31", Cell.int 1, Cell.int 0, Cell.int 0, Cell.int 0]] ∧
    localDateGmt7 (timeDate 9999 12 31 10 0 0 0 0).unix = "9999-12-31" ∧
    localDateGmt7 (timeDate 9999 12 31 23 59 59 0 0).unix = "10000-01-01" ∧
    localDay (timeDate 9999 12 31 10 0 0 0 0).unix
      < localDay (timeDate 9999 12 31 23 59 59 0 0).unix ∧
    ¬ (sortedDates (getAppEventStatistic yearTenThousandEdges) =
        (sortedLocalDays yearTenThousandEdges).map (fun n => ymd (civilFromDays n))) := by
  refine ⟨by decide, by decide, by decide, by decide, by decide⟩

/-- C3, amended: for every list of events (of length below `2^63`, with instants where
Go's date arithmetic does not wrap), the rows built for the sheet are exactly one row per
distinct +7:00 local date of the input, in strictly ascending order of the date strings
(the order of `sort.Strings`, whatever order the map iteration delivered the keys in),
each row being the date followed by the numbers of install, deactivate, reactivate and
uninstall records of that date, 0 for a kind that did not occur.  The order of the date
strings is ascending date order whenever every local date of the input has a year of four
digits (0000 to 9999).  For the end-to-end scenario the table is
`{"2024-05-02": {INSTALLED: 2, UNINSTALLED: 1}}`, the only row is
`["2024-05-02", 2, 0, 0, 1]`, and on a fresh tab it is sent in one append at row 2 after
the header. -/
theorem c3_rows_one_per_date (edges : List AppEventEdges)
    (hlen : (edges.length : Int) < 2 ^ 63)
    (hrange : ∀ e ∈ edges, inDateRange e.node.occurredAt.unix) :
    (sortedDates (getAppEventStatistic edges)).Sorted (fun a b => a < b) ∧
    (∀ d, d ∈ sortedDates (getAppEventStatistic edges) ↔
      ∃ e ∈ edges, localDateGmt7 e.node.occurredAt.unix = d) ∧
    (∀ u1 u2 : Int, localDateGmt7 u1 = localDateGmt7 u2 ↔ localDay u1 = localDay u2) ∧
    (sortedDates (getAppEventStatistic edges)).Perm
      ((sortedLocalDays edges).map (fun n => ymd (civilFromDays n))) ∧
    (∀ keys : List String, keys.Perm (GoMap.keys (getAppEventStatistic edges)) →
      sortStrings keys = sortedDates (getAppEventStatistic edges)) ∧
    builtRows (getAppEventStatistic edges) (sortedDates (getAppEventStatistic edges)) =
      (sortedDates (getAppEventStatistic edges)).map (expectedRow edges) ∧
    ((∀ e ∈ edges,
        0 ≤ (civilFromDays (localDay e.node.occurredAt.unix)).1 ∧
        (civilFromDays (localDay e.node.occurredAt.unix)).1 ≤ 9999) →
      sortedDates (getAppEventStatistic edges) =
        (sortedLocalDays edges).map (fun n => ymd (civilFromDays n))) ∧
    getAppEventStatistic scenarioEdges =
      [("2024-05-02", [("RELATIONSHIP_INSTALLED", 2), ("RELATIONSHIP_UNINSTALLED", 1)])] ∧
    builtRows (getAppEventStatistic scenarioEdges)
        (sortedDates (getAppEventStatistic scenarioEdges)) =
      [[Cell.str "2024-05-02", Cell.int 2, Cell.int 0, Cell.int 0, Cell.int 1]] ∧
    (writeToGoogleSheets noFault "App" [] [] (sortedDates (getAppEventStatistic scenarioEdges))
        (getAppEventStatistic scenarioEdges)).calls =
      [Call.update "App" 1 [headerLiteral],
       Call.append "App" 2
         [[Cell.str "2024-05-02", Cell.int 2, Cell.int 0, Cell.int 0, Cell.int 1]]] := by
  refine ⟨sortedDates_strict edges, mem_sortedDates_local edges hrange, localDateGmt7_eq_iff,
    sortedDates_perm_localDays edges hrange, ?_, ?_, sortedDates_chronological edges hrange,
    by decide, by decide, by decide⟩
  · intro keys hk
    exact sortStrings_perm_eq _ _ hk
  · unfold builtRows
    apply List.map_congr_left
    intro d _
    exact rowData_eq_expectedRow edges hlen hrange d

theorem c3_rows_one_per_date_witness :
    (((scenarioEdges.length : Nat) : Int) < 2 ^ 63) ∧
    (∀ e ∈ scenarioEdges, inDateRange e.node.occurredAt.unix) ∧
    (∀ e ∈ scenarioEdges,
        0 ≤ (civilFromDays (localDay e.node.occurredAt.unix)).1 ∧
        (civilFromDays (localDay e.node.occurredAt.unix)).1 ≤ 9999) ∧
    sortedDates (getAppEventStatistic scenarioEdges) =
      (sortedLocalDays scenarioEdges).map (fun n => ymd (civilFromDays n)) :=
  ⟨by decide, by decide, by decide,
   (c3_rows_one_per_date scenarioEdges (by decide) (by decide)).2.2.2.2.2.2.1 (by decide)⟩

/-! ### The fetch loop -/

theorem fetchLoop_done (responses : List Response) (s : FetchState)
    (h : s.hasNextPage = false) : fetchLoop responses s = some s := by
  cases responses with
  | nil => simp [fetchLoop, h]
  | cons r rest => cases r <;> simp [fetchLoop, h]

theorem fetchLoop_ok (page : Page) (rest : List Response) (s : FetchState)
    (h : s.hasNextPage = true) :
    fetchLoop (Response.ok page :: rest) s = fetchLoop rest (fetchOk s page) := by
  simp [fetchLoop, h]

theorem fetchLoop_error (msg : String) (rest : List Response) (s : FetchState)
    (h : s.hasNextPage = true) :
    fetchLoop (Response.error msg :: rest) s =
      some { s with requests := s.requests ++ [s.endCursor] } := by
  simp [fetchLoop, h]

theorem fetchOk_more (s : FetchState) (page : Page) (hs : s.hasNextPage = true)
    (hp : page.hasNextPage = true) :
    (fetchOk s page).hasNextPage = true ∧
    (fetchOk s page).allEdges = s.allEdges ++ page.edges ∧
    (fetchOk s page).requests = s.requests ++ [s.endCursor] := by
  unfold fetchOk
  simp only [hp, Bool.not_true, Bool.false_eq_true, if_false]
  split
  · split <;> simp [hs]
  · simp [hs]

theorem fetchOk_last (s : FetchState) (page : Page) (hp : page.hasNextPage = false) :
    (fetchOk s page).hasNextPage = false ∧
    (fetchOk s page).allEdges = s.allEdges ++ page.edges ∧
    (fetchOk s page).requests = s.requests ++ [s.endCursor] ∧
    (fetchOk s page).endCursor = s.endCursor := by
  unfold fetchOk
  simp [hp]

/-- While the pages report more pages, the loop consumes one response per page and
accumulates the records in order. -/
theorem fetchLoop_pages (pages : List Page) (hmore : ∀ p ∈ pages, p.hasNextPage = true)
    (tail : List Response) :
    ∀ s : FetchState, s.hasNextPage = true →
      ∃ s2 : FetchState,
        fetchLoop (pages.map Response.ok ++ tail) s = fetchLoop tail s2 ∧
        s2.hasNextPage = true ∧
        s2.allEdges = s.allEdges ++ allRecords pages ∧
        s2.requests.length = s.requests.length + pages.length := by
  induction pages with
  | nil =>
    intro s hs
    exact ⟨s, by simp, hs, by simp [allRecords], by simp⟩
  | cons p ps ih =>
    intro s hs
    have hp : p.hasNextPage = true := hmore p (List.mem_cons_self _ _)
    obtain ⟨h1, h2, h3⟩ := fetchOk_more s p hs hp
    obtain ⟨s2, e1, e2, e3, e4⟩ :=
      ih (fun q hq => hmore q (List.mem_cons_of_mem _ hq)) (fetchOk s p) h1
    refine ⟨s2, ?_, e2, ?_, ?_⟩
    · rw [List.map_cons, List.cons_append, fetchLoop_ok _ _ _ hs, e1]
    · rw [e3, h2]
      simp [allRecords]
    · rw [e4, h3]
      simp
      omega

theorem allRecords_append_singleton (pages : List Page) (p : Page) :
    allRecords (pages ++ [p]) = allRecords pages ++ p.edges := by
  simp [allRecords]

/-- C7: for every sequence of successful page responses, the fetch loop returns right
after the first page whose `hasNextPage` flag is false, be that page empty or not: it has
then sent exactly one request per page received, it reads none of the responses the
service would give to further requests, and the accumulated records are the records of
all pages up to and including that page, concatenated in the order received. -/
theorem c7_cursor_termination (pages : List Page) (last : Page) (rest : List Response)
    (hmore : ∀ p ∈ pages, p.hasNextPage = true) (hlast : last.hasNextPage = false) :
    ∃ s : FetchState,
      fetchLoop (pages.map Response.ok ++ Response.ok last :: rest) FetchState.init = some s ∧
      s.hasNextPage = false ∧
      s.allEdges = allRecords (pages ++ [last]) ∧
      s.requests.length = pages.length + 1 := by
  obtain ⟨s2, e1, e2, e3, e4⟩ :=
    fetchLoop_pages pages hmore (Response.ok last :: rest) FetchState.init rfl
  obtain ⟨l1, l2, l3, _⟩ := fetchOk_last s2 last hlast
  refine ⟨fetchOk s2 last, ?_, l1, ?_, ?_⟩
  · rw [e1, fetchLoop_ok _ _ _ e2, fetchLoop_done _ _ l1]
  · rw [l2, e3, allRecords_append_singleton]
    simp [FetchState.init]
  · rw [l3, List.length_append, e4]
    simp [FetchState.init]

/-- The statement of C7 for a first page with the three records of the end-to-end
scenario followed by an empty last page; the failure queued behind them is never read. -/
theorem c7_cursor_termination_witness :
    (∀ p ∈ [({ edges := scenarioEdges, hasNextPage := true } : Page)],
      p.hasNextPage = true) ∧
    ({ edges := [], hasNextPage := false } : Page).hasNextPage = false ∧
    ∃ s : FetchState,
      fetchLoop ([({ edges := scenarioEdges, hasNextPage := true } : Page)].map Response.ok ++
          Response.ok { edges := [], hasNextPage := false } ::
            [Response.error "unavailable"]) FetchState.init = some s ∧
      s.hasNextPage = false ∧
      s.allEdges = allRecords ([({ edges := scenarioEdges, hasNextPage := true } : Page)] ++
        [{ edges := [], hasNextPage := false }]) ∧
      s.requests.length = [({ edges := scenarioEdges, hasNextPage := true } : Page)].length + 1 :=
  ⟨by decide, rfl,
   c7_cursor_termination [{ edges := scenarioEdges, hasNextPage := true }]
     { edges := [], hasNextPage := false } [Response.error "unavailable"] (by decide) rfl⟩

theorem afterFetch_noFault (startOfDay name : String) (s : FetchState)
    (headerRange existingData : List Row) :
    afterFetch startOfDay name s headerRange existingData noFault =
      Except.ok
        { occurredAtMin := startOfDay, requests := s.requests, allEdges := s.allEdges,
          dates := sortedDates (getAppEventStatistic s.allEdges),
          sheet := writeToGoogleSheets noFault name headerRange existingData
            (sortedDates (getAppEventStatistic s.allEdges))
            (getAppEventStatistic s.allEdges) } := by
  unfold afterFetch
  simp only [writeToGoogleSheets_noFault]

theorem main_eq_afterFetch (timeParse : String → Except String Time) (now : Time)
    (args : List String) (name startOfDay : String) (responses : List Response)
    (headerRange existingData : List Row) (fails : Faults) (s : FetchState)
    (hargs : 4 ≤ args.length)
    (hmin : occurredAtMin timeParse now args = Except.ok startOfDay)
    (hfetch : fetchLoop responses FetchState.init = some s) :
    main timeParse now args (Except.ok name) responses headerRange existingData fails =
      some (afterFetch startOfDay name s headerRange existingData fails) := by
  unfold main
  have h4 : ¬ args.length < 4 := by omega
  simp only [h4, if_false, hmin, hfetch]

/-- C9: when the first failing request comes after `n - 1` pages that all reported more
pages, the fetch loop returns at that request: it has sent `n` requests, reads no further
response (no retry), and holds exactly the records of the `n - 1` pages, concatenated in
the order received.  The run is not aborted: `main` goes on to aggregate and write exactly
these records, and ends normally when the sheet writes succeed. -/
theorem c9_soft_fetch_failure (pages : List Page) (msg : String) (rest : List Response)
    (timeParse : String → Except String Time) (now : Time) (args : List String)
    (name startOfDay : String) (headerRange existingData : List Row) (fails : Faults)
    (hmore : ∀ p ∈ pages, p.hasNextPage = true) (hargs : 4 ≤ args.length)
    (hmin : occurredAtMin timeParse now args = Except.ok startOfDay) :
    ∃ s : FetchState,
      fetchLoop (pages.map Response.ok ++ Response.error msg :: rest) FetchState.init
        = some s ∧
      s.allEdges = allRecords pages ∧
      s.requests.length = pages.length + 1 ∧
      main timeParse now args (Except.ok name)
          (pages.map Response.ok ++ Response.error msg :: rest) headerRange existingData fails
        = some (afterFetch startOfDay name s headerRange existingData fails) ∧
      main timeParse now args (Except.ok name)
          (pages.map Response.ok ++ Response.error msg :: rest) headerRange existingData noFault
        = some (Except.ok
            { occurredAtMin := startOfDay, requests := s.requests,
              allEdges := allRecords pages,
              dates := sortedDates (getAppEventStatistic (allRecords pages)),
              sheet := writeToGoogleSheets noFault name headerRange existingData
                (sortedDates (getAppEventStatistic (allRecords pages)))
                (getAppEventStatistic (allRecords pages)) }) := by
  obtain ⟨s2, e1, e2, e3, e4⟩ :=
    fetchLoop_pages pages hmore (Response.error msg :: rest) FetchState.init rfl
  have hfetch : fetchLoop (pages.map Response.ok ++ Response.error msg :: rest)
      FetchState.init = some { s2 with requests := s2.requests ++ [s2.endCursor] } := by
    rw [e1, fetchLoop_error _ _ _ e2]
  have hall : ({ s2 with requests := s2.requests ++ [s2.endCursor] } : FetchState).allEdges
      = allRecords pages := by
    show s2.allEdges = allRecords pages
    rw [e3]
    simp [FetchState.init]
  refine ⟨{ s2 with requests := s2.requests ++ [s2.endCursor] }, hfetch, hall, ?_, ?_, ?_⟩
  · show (s2.requests ++ [s2.endCursor]).length = pages.length + 1
    rw [List.length_append, e4]
    simp [FetchState.init]
  · exact main_eq_afterFetch timeParse now args name startOfDay _ headerRange existingData
      fails _ hargs hmin hfetch
  · rw [main_eq_afterFetch timeParse now args name startOfDay _ headerRange existingData
      noFault _ hargs hmin hfetch, afterFetch_noFault, hall]

/-- The statement of C9 for a first page with the three records of the end-to-end
scenario and a failure of the second request, on a run without date argument. -/
theorem c9_soft_fetch_failure_witness :
    (∀ p ∈ [({ edges := scenarioEdges, hasNextPage := true } : Page)],
      p.hasNextPage = true) ∧
    4 ≤ ["sync", "token", "app", "partner"].length ∧
    occurredAtMin (fun _ => Except.error "unused") (timeDate 2024 5 2 3 0 0 0 gmt7)
      ["sync", "token", "app", "partner"] = Except.ok "2024-05-01T17:00:00Z" ∧
    ∃ s : FetchState,
      fetchLoop ([({ edges := scenarioEdges, hasNextPage := true } : Page)].map Response.ok ++
          Response.error "unavailable" :: []) FetchState.init = some s ∧
      s.allEdges = allRecords [{ edges := scenarioEdges, hasNextPage := true }] ∧
      s.requests.length = [({ edges := scenarioEdges, hasNextPage := true } : Page)].length + 1 :=
  ⟨by decide, by decide, congrArg Except.ok (by decide),
   (c9_soft_fetch_failure [{ edges := scenarioEdges, hasNextPage := true }] "unavailable" []
      (fun _ => Except.error "unused") (timeDate 2024 5 2 3 0 0 0 gmt7)
      ["sync", "token", "app", "partner"] "App" "2024-05-01T17:00:00Z" [] [] noFault
      (by decide) (by decide) (congrArg Except.ok (by decide))).imp
     (fun _ h => ⟨h.1, h.2.1, h.2.2.1⟩)⟩

/-- C8 does not hold of the code: lines 82-84 take year, month and day of `now` in the
zone of the process clock and only then place them in the +7:00 zone, so that the lower
bound is midnight at +7:00 of the date the process clock shows.  With the clock reporting
2024-05-01T18:00:00Z in UTC, the current day at +7:00 is 2024-05-02, whose local midnight
is 2024-05-01T17:00:00Z, but the lower bound sent is 2024-04-30T17:00:00Z, a full day
earlier. -/
theorem c8_lower_bound_in_utc_process_zone (timeParse : String → Except String Time) :
    (∀ now : Time,
      (startOfDayTime now).unix = (now.unix + now.offset) / 86400 * 86400 - 7 * 3600) ∧
    ((timeDate 2024 5 1 18 0 0 0 0).In gmt7).FormatDate = "2024-05-02" ∧
    Time.FormatRFC3339UTC
        { unix := localMidnightGmt7 (timeDate 2024 5 1 18 0 0 0 0).unix, nsec := 0, offset := 0 }
      = "2024-05-01T17:00:00Z" ∧
    occurredAtMin timeParse (timeDate 2024 5 1 18 0 0 0 0) ["sync", "token", "app", "partner"]
      = Except.ok "2024-04-30T17:00:00Z" ∧
    (startOfDayTime (timeDate 2024 5 1 18 0 0 0 0)).unix
      = localMidnightGmt7 (timeDate 2024 5 1 18 0 0 0 0).unix - 86400 := by
  refine ⟨startOfDayTime_unix, by decide, by decide, ?_, by decide⟩
  exact congrArg Except.ok (by decide)

end PartnerSync
